import Mathlib

/-!
Verification development for the site-discovery engine of `app.py`
(AIO Pro Backend).  The Python source is shallowly embedded: pure string
manipulation is translated to functions on `List Char` (with `String`
wrappers), network I/O is modelled by a `World` function mapping a URL and
an attempt index to an HTTP response, and the `/crawl_site` endpoint
becomes a total Lean function over a `World`.

The relevant pieces of CPython's `urllib.parse` (`urlsplit`, `urlunsplit`,
`urljoin`, `urldefrag`, `urlparse`-netloc) are modelled after the CPython
3.11 implementation: leading C0-control/space characters are stripped,
tab/CR/LF are removed everywhere, a valid scheme prefix is lower-cased,
and the netloc is the run after `//` up to the next `/`, `?` or `#`.
Python's `str.strip()` is modelled on ASCII whitespace.

`urlsplit` is not total: it raises `ValueError("Invalid IPv6 URL")` when
the netloc contains `[` without `]` or vice versa.  The embedding carries
this error path explicitly: `pyUrlsplitE`, `normalize_urlE`, `same_hostE`
and `pyUrljoinE` return `Except Unit _` (the `.error` is the raise), the
`_Core` functions are their non-raising value components, and every call
site mirrors the source's handling — absorbed where the source wraps the
call in `try/except`, propagated as a request-level fault (`crawl_siteE`)
where it does not.  The additional matched-bracket host validation of
recent CPython 3.11 patch releases (`_check_bracketed_host`, which also
raises on a syntactically well-bracketed but invalid address) is not
modelled; every statement below about the raise path uses only the
mismatched-bracket condition.
-/

/-- ASCII model of the whitespace class trimmed by Python's `str.strip()`. -/
def pyWs (c : Char) : Bool :=
  c == ' ' || c == '\t' || c == '\n' || c == '\r' || c == '\x0b' || c == '\x0c'

/-- Python `str.strip()` on a character list. -/
def stripCore (l : List Char) : List Char :=
  ((l.dropWhile pyWs).reverse.dropWhile pyWs).reverse

/-- C0-control-or-space class stripped by `urllib.parse.urlsplit`. -/
def c0space (c : Char) : Bool := c ≤ ' '

/-- Tab, CR and LF: `urlsplit` removes these anywhere in the URL. -/
def tabCrLf (c : Char) : Bool := c == '\t' || c == '\r' || c == '\n'

def removeTabCrLf (l : List Char) : List Char := l.filter (fun c => !(tabCrLf c))

/-- Characters allowed in a URL scheme (`urllib.parse.scheme_chars`). -/
def schemeChar (c : Char) : Bool :=
  c.isAlpha || c.isDigit || c == '+' || c == '-' || c == '.'

def toLowerL (l : List Char) : List Char := l.map Char.toLower

/-- Boolean list-prefix test (Python `str.startswith`). -/
def isPref : List Char → List Char → Bool
  | [], _ => true
  | _ :: _, [] => false
  | a :: as, b :: bs => a == b && isPref as bs

/-- Split at the first occurrence of `c` (exclusive), if present. -/
def splitAtChar (c : Char) : List Char → Option (List Char × List Char)
  | [] => none
  | x :: xs =>
    if x == c then some ([], xs)
    else (splitAtChar c xs).map (fun p => (x :: p.1, p.2))

/-- The five components produced by `urllib.parse.urlsplit`. -/
structure UrlParts where
  scheme : List Char
  netloc : List Char
  path : List Char
  query : List Char
  fragment : List Char
deriving DecidableEq

def stripC0 (l : List Char) : List Char :=
  ((l.dropWhile c0space).reverse.dropWhile c0space).reverse

/-- Split once at the first occurrence of `c`; the whole input and an
empty tail when `c` does not occur. -/
def splitOnceAt (c : Char) (l : List Char) : List Char × List Char :=
  match splitAtChar c l with
  | some (a, b) => (a, b)
  | none => (l, [])

/-- The scheme detection of CPython `urlsplit`: at the first colon, require a
leading alphabetic character and scheme characters throughout, lower-case
the scheme; otherwise keep the default scheme and the whole URL. -/
def schemeSplit (dsch url1 : List Char) : List Char × List Char :=
  match splitAtChar ':' url1 with
  | some (pre, post) =>
    if pre ≠ [] ∧ (pre.headD ' ').isAlpha ∧ pre.all schemeChar
    then (toLowerL pre, post)
    else (dsch, url1)
  | none => (dsch, url1)

/-- The netloc extraction of CPython `urlsplit`: after a leading `//`, the
run up to the next `/`, `?` or `#`. -/
def netlocSplit : List Char → List Char × List Char
  | '/' :: '/' :: r =>
    let nl := r.takeWhile (fun c => !(c == '/' || c == '?' || c == '#'))
    (nl, r.drop nl.length)
  | rest => ([], rest)

/-- CPython `urlsplit(url, scheme)` (params are folded into the path,
as in `urlsplit`; `allow_fragments` is always true in the source). -/
def pyUrlsplitCore (url0 defscheme : List Char) : UrlParts :=
  let url1 := removeTabCrLf (url0.dropWhile c0space)
  let dsch := removeTabCrLf (stripC0 defscheme)
  let sp := schemeSplit dsch url1
  let np := netlocSplit sp.2
  let fr := splitOnceAt '#' np.2
  let pq := splitOnceAt '?' fr.1
  ⟨sp.1, np.1, pq.1, pq.2, fr.2⟩

def startsSlashSlash : List Char → Bool
  | '/' :: '/' :: _ => true
  | _ => false

/-- The netloc/path recombination step of CPython `urlunsplit`:
`if netloc or (url and url[:2] == '//'): ...`. -/
def unsplitNetlocPart (netloc path : List Char) : List Char :=
  if netloc ≠ [] ∨ (path ≠ [] ∧ startsSlashSlash path) then
    let u := if path ≠ [] ∧ ¬ (path.headD ' ' == '/') then '/' :: path else path
    '/' :: '/' :: (netloc ++ u)
  else path

/-- CPython `urlunsplit`. -/
def pyUrlunsplitCore (p : UrlParts) : List Char :=
  let url1 := unsplitNetlocPart p.netloc p.path
  let url2 := if p.scheme ≠ [] then p.scheme ++ ':' :: url1 else url1
  let url3 := if p.query ≠ [] then url2 ++ '?' :: p.query else url2
  if p.fragment ≠ [] then url3 ++ '#' :: p.fragment else url3

/-- `urllib.parse.uses_relative`. -/
def usesRelative : List (List Char) :=
  ["", "ftp", "http", "gopher", "nntp", "imap", "wais", "file", "https",
   "shttp", "mms", "prospero", "rtsp", "rtspu", "sftp", "svn", "svn+ssh",
   "ws", "wss"].map String.data

/-- `urllib.parse.uses_netloc`. -/
def usesNetloc : List (List Char) :=
  ["", "ftp", "http", "gopher", "nntp", "telnet", "imap", "wais", "file",
   "mms", "https", "shttp", "snews", "prospero", "rtsp", "rtspu", "rsync",
   "svn", "svn+ssh", "sftp", "nfs", "git", "git+ssh", "ws", "wss",
   "itms-services"].map String.data

/-- Python `str.split('/')`. -/
def splitOnSlash : List Char → List (List Char)
  | [] => [[]]
  | c :: rest =>
    if c == '/' then [] :: splitOnSlash rest
    else
      match splitOnSlash rest with
      | [] => [[c]]
      | s :: ss => (c :: s) :: ss

def joinSlash : List (List Char) → List Char
  | [] => []
  | [x] => x
  | x :: xs => x ++ '/' :: joinSlash xs

/-- `segments[1:-1] = filter(None, segments[1:-1])` from CPython `urljoin`. -/
def filterInterior : List (List Char) → List (List Char)
  | [] => []
  | [x] => [x]
  | x :: xs => x :: ((xs.dropLast.filter (fun s => s ≠ [])) ++ [xs.getLastD []])

/-- CPython `urljoin` (params folded into the path). -/
def pyUrljoinCore (base url : List Char) : List Char :=
  if base = [] then url
  else if url = [] then base
  else
    let b := pyUrlsplitCore base []
    let u := pyUrlsplitCore url b.scheme
    if u.scheme ≠ b.scheme ∨ u.scheme ∉ usesRelative then url
    else if u.scheme ∈ usesNetloc ∧ u.netloc ≠ [] then pyUrlunsplitCore u
    else
      let netloc := if u.scheme ∈ usesNetloc then b.netloc else u.netloc
      if u.path = [] then
        pyUrlunsplitCore
          ⟨u.scheme, netloc, b.path,
           (if u.query = [] then b.query else u.query), u.fragment⟩
      else
        let baseParts0 := splitOnSlash b.path
        let baseParts :=
          if baseParts0.getLastD [] ≠ [] then baseParts0.dropLast else baseParts0
        let segments :=
          match u.path with
          | '/' :: _ => splitOnSlash u.path
          | _ => filterInterior (baseParts ++ splitOnSlash u.path)
        let resolved := segments.foldl
          (fun acc seg =>
            if seg = ".".data then acc
            else if seg = "..".data then acc.dropLast
            else acc ++ [seg]) []
        let resolved2 :=
          if segments.getLastD [] = ".".data ∨ segments.getLastD [] = "..".data
          then resolved ++ [[]] else resolved
        let newPath := joinSlash resolved2
        pyUrlunsplitCore
          ⟨u.scheme, netloc, (if newPath = [] then "/".data else newPath),
           u.query, u.fragment⟩

/-- CPython `urldefrag`: reconstruct without the fragment when `'#'` occurs. -/
def pyUrldefragCore (l : List Char) : List Char :=
  if '#' ∈ l then pyUrlunsplitCore { pyUrlsplitCore l [] with fragment := [] }
  else l

/-- The `ValueError("Invalid IPv6 URL")` condition of CPython `urlsplit`:
the netloc contains `[` without `]` or `]` without `[`. -/
def netlocInvalid (nl : List Char) : Bool :=
  (nl.contains '[' && !(nl.contains ']')) ||
  (nl.contains ']' && !(nl.contains '['))

/-- Whether CPython `urlsplit(url0, defscheme)` raises: the bracket check
runs only in the `url[:2] == '//'` branch, on the extracted netloc. -/
def urlsplitRaises (url0 defscheme : List Char) : Bool :=
  let url1 := removeTabCrLf (url0.dropWhile c0space)
  let dsch := removeTabCrLf (stripC0 defscheme)
  let sp := schemeSplit dsch url1
  startsSlashSlash sp.2 && netlocInvalid (netlocSplit sp.2).1

/-- CPython `urlsplit` with its error path: `.error ()` is the raised
`ValueError`, and the value on success is `pyUrlsplitCore` (which computes
the same components the raising run would have computed). -/
def pyUrlsplitE (url0 defscheme : List Char) : Except Unit UrlParts :=
  if urlsplitRaises url0 defscheme then .error ()
  else .ok (pyUrlsplitCore url0 defscheme)

/-- CPython `urldefrag` with the error path of its internal `urlsplit`
call (taken only when `'#'` occurs in the input). -/
def pyUrldefragE (l : List Char) : Except Unit (List Char) :=
  if '#' ∈ l then
    match pyUrlsplitE l [] with
    | .error e => .error e
    | .ok p => .ok (pyUrlunsplitCore { p with fragment := [] })
  else .ok l

def startsHttp (u : List Char) : Bool :=
  isPref "http://".data u || isPref "https://".data u

/-- The anchored case-insensitive regex `^(mailto:|tel:|javascript:)`. -/
def badScheme (u : List Char) : Bool :=
  isPref "mailto:".data (toLowerL u) || isPref "tel:".data (toLowerL u) ||
  isPref "javascript:".data (toLowerL u)

/-- The non-raising value component of `normalize_url` from `app.py`:
strip, drop fragment, require an `http://`/`https://` prefix, reject
`mailto:`/`tel:`/`javascript:`.  The full embedding, with the
`ValueError` that `urldefrag` can raise, is `normCoreE` below. -/
def normCore (l : List Char) : List Char :=
  let u := pyUrldefragCore (stripCore l)
  if startsHttp u then (if badScheme u then [] else u) else []

def normalize_url (s : String) : String := ⟨normCore s.data⟩

/-- `normalize_url` from `app.py` with its error path: the `urldefrag`
call can raise `ValueError` (no `try/except` inside `normalize_url`). -/
def normCoreE (l : List Char) : Except Unit (List Char) :=
  match pyUrldefragE (stripCore l) with
  | .error e => .error e
  | .ok u => .ok (if startsHttp u then (if badScheme u then [] else u) else [])

def normalize_urlE (s : String) : Except Unit String :=
  match normCoreE s.data with
  | .error e => .error e
  | .ok r => .ok ⟨r⟩

/-- The variant of `normalize_url` with the regex rejection branch removed,
used to state the unreachability claim about that branch. -/
def normCoreNoRegex (l : List Char) : List Char :=
  let u := pyUrldefragCore (stripCore l)
  if startsHttp u then u else []

def normalize_url_noRegex (s : String) : String := ⟨normCoreNoRegex s.data⟩

/-- The non-raising value component of `same_host` from `app.py`:
`urlparse(url).netloc == host`.  The full embedding with the `ValueError`
of the internal `urlparse` call is `same_hostE` below. -/
def same_host (url host : String) : Bool :=
  (pyUrlsplitCore url.data []).netloc == host.data

/-- `same_host` from `app.py` with its error path: `urlparse(url)` raises
on a bracket-mismatched netloc, and `same_host` does not catch it. -/
def same_hostE (url host : String) : Except Unit Bool :=
  match pyUrlsplitE url.data [] with
  | .error e => .error e
  | .ok p => .ok (p.netloc == host.data)

/-- The non-raising value component of `absolutize` from `app.py`:
`urljoin(base, maybe_relative)`. -/
def absolutize (base maybe_relative : String) : String :=
  ⟨pyUrljoinCore base.data maybe_relative.data⟩

/-- CPython `urljoin` with its error path: it parses the base, then the
reference (with the base's scheme as default), and either parse can
raise; on success the value is `pyUrljoinCore`. -/
def pyUrljoinE (base url : List Char) : Except Unit (List Char) :=
  if base = [] then .ok url
  else if url = [] then .ok base
  else
    match pyUrlsplitE base [] with
    | .error e => .error e
    | .ok b =>
      match pyUrlsplitE url b.scheme with
      | .error e => .error e
      | .ok _ => .ok (pyUrljoinCore base url)

def pyUrljoinES (base url : String) : Except Unit String :=
  match pyUrljoinE base.data url.data with
  | .error e => .error e
  | .ok r => .ok ⟨r⟩

/-- Lexicographic (code-point) order on strings, as used by Python `sorted`. -/
def charsLe : List Char → List Char → Bool
  | [], _ => true
  | _ :: _, [] => false
  | a :: as, b :: bs => if a < b then true else if b < a then false else charsLe as bs

def strLe (a b : String) : Bool := charsLe a.data b.data

def insertStr (x : String) : List String → List String
  | [] => [x]
  | y :: ys => if strLe x y then x :: y :: ys else y :: insertStr x ys

/-- Python `sorted` on a deduplicated list of strings. -/
def sortStr (l : List String) : List String := l.foldr insertStr []

/-- Set-style insertion used to model Python `set.add`. -/
def addUniq (l : List String) (x : String) : List String :=
  if x ∈ l then l else l ++ [x]

/-! ## World model for network I/O -/

/-- A JSON value, as returned by `httpx.Response.json()`. -/
inductive Json where
  | null
  | jbool (b : Bool)
  | jnum (n : Int)
  | jstr (s : String)
  | jarr (xs : List Json)
  | jobj (fields : List (String × Json))

/-- The outcome of one HTTP request: a transported response (status,
`content-type` header, text body, and what `.json()` would yield — `.error`
when decoding raises) or a network/timeout failure (`err`). -/
inductive HttpResp where
  | resp (status : Nat) (contentType : String) (body : String)
      (json : Except Unit Json)
  | err

/-- A deterministic server: response of `url` on its `n`-th fetch attempt.
The code performs exactly one attempt per fetch, so only index 0 is ever
consulted; the index exists to state retry properties. -/
def World := String → Nat → HttpResp

/-- `fetch_text` from `app.py`: one GET, `raise_for_status` (success means
2xx in httpx), and every exception is absorbed into the empty string.  The
Python version returns the pair `(url, text)`; callers in this embedding
re-pair the requested URL explicitly. -/
def fetch_text (w : World) (u : String) : String :=
  match w u 0 with
  | .err => ""
  | .resp st _ body _ => if 200 ≤ st ∧ st < 300 then body else ""

/-! ## Sitemap discovery and XML/HTML link extraction -/

def afterColon : List Char → List Char
  | [] => []
  | c :: rest => if c == ':' then rest else afterColon rest

/-- Python `str.splitlines` restricted to `\n`, `\r`, `\r\n`. -/
def splitlinesGo : List Char → List Char → List (List Char)
  | [], cur => if cur = [] then [] else [cur.reverse]
  | '\r' :: '\n' :: rest, cur => cur.reverse :: splitlinesGo rest []
  | '\r' :: rest, cur => cur.reverse :: splitlinesGo rest []
  | '\n' :: rest, cur => cur.reverse :: splitlinesGo rest []
  | c :: rest, cur => splitlinesGo rest (c :: cur)

def pySplitlinesCore (l : List Char) : List (List Char) := splitlinesGo l []

/-- The `robots.txt` scan of `discover_sitemaps`: for each line whose
lower-casing starts with `sitemap:`, take the text after the first colon,
strip it and normalize it. -/
def robotsSitemapLines (robots : String) : List String :=
  (pySplitlinesCore robots.data).filterMap (fun line =>
    if isPref "sitemap:".data (toLowerL line) then
      let sm := normCore (stripCore (afterColon line))
      if sm ≠ [] then some (⟨sm⟩ : String) else none
    else none)

def SITEMAP_CANDIDATES : List String :=
  ["/sitemap.xml", "/sitemap_index.xml", "/wp-sitemap.xml",
   "/post-sitemap.xml", "/page-sitemap.xml", "/feed/sitemap.xml"]

def WORDPRESS_REST_PAGES : String := "/wp-json/wp/v2/pages?per_page=100"
def WORDPRESS_REST_POSTS : String := "/wp-json/wp/v2/posts?per_page=100"

def pyUrljoin (base url : String) : String := ⟨pyUrljoinCore base.data url.data⟩

/-- `discover_sitemaps` from `app.py`: robots.txt `Sitemap:` lines plus the
fixed candidate paths whose fetched body is nonempty, longer than 60
characters and contains `<`.  The Python `set` is modelled as an
insertion-ordered duplicate-free list. -/
def discover_sitemaps (w : World) (root : String) : List String :=
  let robotsUrl := pyUrljoin root "/robots.txt"
  let robots := fetch_text w robotsUrl
  let found1 := if robots ≠ "" then (robotsSitemapLines robots).foldl addUniq [] else []
  SITEMAP_CANDIDATES.foldl (fun acc path =>
    let smUrl := pyUrljoin root path
    let text := fetch_text w smUrl
    if text ≠ "" ∧ 60 < text.length ∧ '<' ∈ text.data then addUniq acc smUrl
    else acc) found1

/-- The robots.txt line loop of `discover_sitemaps` with its error path:
the `normalize_url(sm)` call (app.py line 99) is not wrapped in any
`try/except`, so its `ValueError` propagates out of `discover_sitemaps`. -/
def robotsLinesGo : List (List Char) → List String → Except Unit (List String)
  | [], acc => .ok acc
  | line :: rest, acc =>
    if isPref "sitemap:".data (toLowerL line) then
      match normCoreE (stripCore (afterColon line)) with
      | .error e => .error e
      | .ok sm => robotsLinesGo rest (if sm ≠ [] then addUniq acc ⟨sm⟩ else acc)
    else robotsLinesGo rest acc

/-- The candidate-path loop of `discover_sitemaps` with its error path:
the `urljoin(root, path)` calls are un-wrapped. -/
def smCandidatesGo (w : World) (root : String) :
    List String → List String → Except Unit (List String)
  | [], acc => .ok acc
  | path :: rest, acc =>
    match pyUrljoinES root path with
    | .error e => .error e
    | .ok smUrl =>
      let text := fetch_text w smUrl
      smCandidatesGo w root rest
        (if text ≠ "" ∧ 60 < text.length ∧ '<' ∈ text.data then addUniq acc smUrl
         else acc)

/-- `discover_sitemaps` with its error paths: the `urljoin` calls and the
robots-line `normalize_url` call are un-wrapped, so a `ValueError` there
escapes the function (and, further up, the whole request handler). -/
def discover_sitemapsE (w : World) (root : String) :
    Except Unit (List String) :=
  match pyUrljoinES root "/robots.txt" with
  | .error e => .error e
  | .ok robotsUrl =>
    let robots := fetch_text w robotsUrl
    match (if robots ≠ "" then robotsLinesGo (pySplitlinesCore robots.data) []
           else .ok []) with
    | .error e => .error e
    | .ok found1 => smCandidatesGo w root SITEMAP_CANDIDATES found1

/-- Take characters until the closing token, returning the remainder after
it; an unclosed span extends to the end of input (lenient parser model). -/
def grabUntilChar (stop : Char) : List Char → (List Char × List Char)
  | [] => ([], [])
  | c :: rest =>
    if c == stop then ([], rest)
    else
      let r := grabUntilChar stop rest
      (c :: r.1, r.2)

/-- Fuel-indexed scanner for `<loc>…</loc>` spans; the fuel is the input
length, which bounds the number of scanning steps. -/
def locScanGo : Nat → List Char → Option (List Char) → List (List Char)
  | _, [], none => []
  | _, [], some cur => [cur.reverse]
  | 0, _ :: _, none => []
  | 0, _ :: _, some cur => [cur.reverse]
  | fuel + 1, l@(_ :: rest), none =>
    if isPref "<loc>".data l then locScanGo fuel (l.drop 5) (some [])
    else locScanGo fuel rest none
  | fuel + 1, l@(c :: rest), some cur =>
    if isPref "</loc>".data l then cur.reverse :: locScanGo fuel (l.drop 6) none
    else locScanGo fuel rest (some (c :: cur))

/-- Model of BeautifulSoup's `find_all("loc")` text extraction: the text of
every `<loc>…</loc>` span. -/
def extractLocs (s : String) : List String :=
  (locScanGo s.data.length s.data none).map (fun l => (⟨l⟩ : String))

/-- The `<loc>` loop of `extract_urls_from_sitemap`: the whole loop runs
inside the function's `try/except`, so a `ValueError` raised by
`normalize_url` aborts the loop and the URLs accumulated so far are
returned. -/
def sitemapLocsGo : List String → List String → List String
  | [], acc => acc
  | loc :: rest, acc =>
    match normalize_urlE loc with
    | .error _ => acc
    | .ok u => sitemapLocsGo rest (if u ≠ "" then addUniq acc u else acc)

/-- `extract_urls_from_sitemap` from `app.py`: normalize each `<loc>` text,
keep the nonempty results (set semantics: first-occurrence dedup); any
exception is absorbed, keeping the URLs collected so far. -/
def extract_urls_from_sitemap (xml : String) : List String :=
  sitemapLocsGo (extractLocs xml) []

/-- Find the first `href="…"` attribute value inside a tag body. -/
def hrefFind : List Char → Option (List Char)
  | [] => none
  | l@(_ :: rest) =>
    if isPref "href=\"".data l then some ((grabUntilChar '"' (l.drop 6)).1)
    else hrefFind rest

/-- Fuel-indexed scanner for `<a …>` tags carrying an `href` attribute:
model of BeautifulSoup's `find_all("a", href=True)` on the double-quoted
attribute form. -/
def hrefScanGo : Nat → List Char → List (List Char)
  | _, [] => []
  | 0, _ :: _ => []
  | fuel + 1, l@(_ :: rest) =>
    if isPref "<a ".data l then
      let tag := grabUntilChar '>' (l.drop 3)
      match hrefFind tag.1 with
      | some h => h :: hrefScanGo fuel tag.2
      | none => hrefScanGo fuel tag.2
    else hrefScanGo fuel rest

def extractHrefs (s : String) : List String :=
  (hrefScanGo s.data.length s.data).map (fun l => (⟨l⟩ : String))

/-- The anchor loop of `extract_links_from_html`: `urljoin`,
`normalize_url` and `same_host` can all raise, the whole loop runs inside
the function's `try/except`, so a raise aborts the loop keeping the links
accumulated so far (Python `and` short-circuits: `same_host` is not
called when the normalized link is empty). -/
def htmlLinksGo (base_url host : String) : List String → List String → List String
  | [], acc => acc
  | href :: rest, acc =>
    match pyUrljoinES base_url href with
    | .error _ => acc
    | .ok absolute0 =>
      match normalize_urlE absolute0 with
      | .error _ => acc
      | .ok absolute =>
        if absolute ≠ "" then
          match same_hostE absolute host with
          | .error _ => acc
          | .ok true => htmlLinksGo base_url host rest (addUniq acc absolute)
          | .ok false => htmlLinksGo base_url host rest acc
        else htmlLinksGo base_url host rest acc

/-- `extract_links_from_html` from `app.py`: for every anchor `href`,
absolutize against the page URL, normalize, and keep same-host results
(set semantics: first-occurrence dedup); any exception is absorbed,
keeping the links collected so far. -/
def extract_links_from_html (html base_url host : String) : List String :=
  htmlLinksGo base_url host (extractHrefs html) []

/-! ## WordPress REST enumeration -/

def jlookup : List (String × Json) → String → Option Json
  | [], _ => none
  | (k', v) :: rest, k => if k' = k then some v else jlookup rest k

/-- Python truthiness of an optional JSON value (`None` when absent). -/
def jtruthy : Option Json → Bool
  | none => false
  | some .null => false
  | some (.jbool b) => b
  | some (.jnum n) => n != 0
  | some (.jstr s) => s ≠ ""
  | some (.jarr xs) => !xs.isEmpty
  | some (.jobj kvs) => !kvs.isEmpty

/-- `link = item.get("link") or item.get("guid", {}).get("rendered")`:
the primary link field with Python `or` fallback; `.error ()` models an
`AttributeError` on a non-dict `guid`. -/
def wpLinkOf (kvs : List (String × Json)) : Except Unit (Option Json) :=
  if jtruthy (jlookup kvs "link") then .ok (jlookup kvs "link")
  else
    match jlookup kvs "guid" with
    | none => .ok none
    | some (.jobj g) => .ok (jlookup g "rendered")
    | some _ => .error ()

/-- `if link: link = normalize_url(link); if link and same_host(link,
host): urls.add(link)`; a truthy non-string raises inside
`normalize_url` (`.strip` on a non-str), and `normalize_url`/`same_host`
themselves can raise `ValueError` — all of it lands in the endpoint's
`try/except`. -/
def wpNormalize (host : String) (link : Option Json) :
    Except Unit (Option String) :=
  if jtruthy link then
    match link with
    | some (.jstr s) =>
      match normalize_urlE s with
      | .error e => .error e
      | .ok n =>
        if n ≠ "" then
          match same_hostE n host with
          | .error e => .error e
          | .ok b => .ok (if b then some n else none)
        else .ok none
    | _ => .error ()
  else .ok none

/-- One item of a WP REST collection; `.error ()` models an exception
(attribute access on a non-dict item), which aborts the surrounding
endpoint loop. -/
def wpItemProcess (host : String) (item : Json) : Except Unit (Option String) :=
  match item with
  | .jobj kvs =>
    match wpLinkOf kvs with
    | .error _ => .error ()
    | .ok link => wpNormalize host link
  | _ => .error ()

/-- Fold the items of one collection; an exception keeps the URLs
accumulated so far and stops this endpoint. -/
def wpCollect (host : String) : List Json → List String → List String
  | [], acc => acc
  | it :: rest, acc =>
    match wpItemProcess host it with
    | .error _ => acc
    | .ok none => wpCollect host rest acc
    | .ok (some u) => wpCollect host rest (addUniq acc u)

/-- The body of one endpoint iteration of `enumerate_wordpress`, after
the collection URL has been joined: one GET; process the body only on a
200 status with a JSON content type and a list payload.  Everything here
is inside the endpoint\'s `try/except` (an exception keeps `acc`). -/
def wpEndpointBody (w : World) (url host : String)
    (acc : List String) : List String :=
  match w url 0 with
  | .err => acc
  | .resp st ct _ json =>
    if st = 200 ∧ isPref "application/json".data ct.data then
      match json with
      | .error _ => acc
      | .ok (.jarr items) => wpCollect host items acc
      | .ok _ => acc
    else acc

/-- One endpoint of `enumerate_wordpress`, non-raising value component:
join the collection URL, then run the body. -/
def wpEndpoint (w : World) (root host endpoint : String)
    (acc : List String) : List String :=
  wpEndpointBody w (pyUrljoin root endpoint) host acc

/-- `enumerate_wordpress` from `app.py`: fetch the pages collection, then
the posts collection, each exactly once. -/
def enumerate_wordpress (w : World) (root host : String) : List String :=
  wpEndpoint w root host WORDPRESS_REST_POSTS
    (wpEndpoint w root host WORDPRESS_REST_PAGES [])

/-- One endpoint of `enumerate_wordpress` with its error path: the
`urljoin(root, endpoint)` call at the top of the loop body is outside the
`try/except`, so its `ValueError` propagates out of the enumerator. -/
def wpEndpointE (w : World) (root host endpoint : String)
    (acc : List String) : Except Unit (List String) :=
  match pyUrljoinES root endpoint with
  | .error e => .error e
  | .ok url => .ok (wpEndpointBody w url host acc)

/-- `enumerate_wordpress` with its error path (the un-wrapped `urljoin`). -/
def enumerate_wordpressE (w : World) (root host : String) :
    Except Unit (List String) :=
  match wpEndpointE w root host WORDPRESS_REST_PAGES [] with
  | .error e => .error e
  | .ok a => wpEndpointE w root host WORDPRESS_REST_POSTS a

/-! ## The bounded BFS crawl loop -/

/-- The mutable state of the `while` loop in `crawl_site`.  `fetched`
records, in order, every URL passed to `fetch_text` by the loop (the fetch
trace of the Python code). -/
structure CrawlState where
  toVisit : List String
  visited : List String
  discovered : List String
  fetched : List String

/-- The inner `while to_visit and len(batch) < 10` drain: pop from the
frontier head, skip visited URLs, mark each batched URL visited at dequeue
time.  Returns `(batch, to_visit, visited)`. -/
def drain : List String → List String → List String →
    List String × List String × List String
  | [], visited, batch => (batch, [], visited)
  | url :: rest, visited, batch =>
    if 10 ≤ batch.length then (batch, url :: rest, visited)
    else if url ∈ visited then drain rest visited batch
    else drain rest (url :: visited) (batch ++ [url])

/-- Processing of one extracted link inside the batch loop:
`if nl not in discovered and same_host(nl, host): discovered.add(nl);
if len(discovered) < max_pages: to_visit.append(nl)`. -/
def processLink (host : String) (mp : Nat) :
    List String × List String → String → List String × List String
  | (disc, tv), nl =>
    if nl ∈ disc then (disc, tv)
    else if same_host nl host then
      let disc' := disc ++ [nl]
      (disc', if disc'.length < mp then tv ++ [nl] else tv)
    else (disc, tv)

/-- Processing of one `(page_url, text)` fetch result. -/
def processPage (host : String) (mp : Nat) :
    List String × List String → String × String → List String × List String
  | (disc, tv), (page_url, text) =>
    if text = "" then (disc, tv)
    else (extract_links_from_html text page_url host).foldl
      (processLink host mp) (disc, tv)

/-- The `while to_visit and len(discovered) < max_pages` loop of
`crawl_site`, fuel-indexed.  `crawl_site` supplies fuel strictly larger
than `loopMeasure`, which is proved sufficient below. -/
def crawlLoop (w : World) (host : String) (mp : Nat) :
    Nat → CrawlState → CrawlState
  | 0, s => s
  | fuel + 1, s =>
    if s.toVisit = [] ∨ mp ≤ s.discovered.length then s
    else
      let d := drain s.toVisit s.visited []
      if d.1 = [] then { s with toVisit := d.2.1, visited := d.2.2 }
      else
        let results := d.1.map (fun u => (u, fetch_text w u))
        let dt := results.foldl (processPage host mp) (s.discovered, d.2.1)
        crawlLoop w host mp fuel
          { toVisit := dt.2, visited := d.2.2, discovered := dt.1,
            fetched := s.fetched ++ d.1 }

/-- Decreasing measure of the crawl loop. -/
def loopMeasure (mp : Nat) (s : CrawlState) : Nat :=
  s.toVisit.length + 2 * (mp - s.discovered.length)

/-- Potential bounding the number of fetches the loop can still make. -/
def crawlPhi (mp : Nat) (s : CrawlState) : Nat :=
  s.fetched.length + s.toVisit.length + (mp - s.discovered.length)

/-! ## The `/crawl_site` endpoint -/

structure CrawlResult where
  url : String
  link_count : Nat
  links : List String
deriving DecidableEq

/-- `urlparse(url).netloc` as a `String`. -/
def hostOf (url : String) : String := ⟨(pyUrlsplitCore url.data []).netloc⟩

/-- The sitemap phase of `crawl_site`: for each discovered sitemap URL,
fetch it and union in the same-host subset of its `<loc>` URLs. -/
def sitemapPhase (w : World) (host : String) (sitemaps : List String)
    (d0 : List String) : List String :=
  sitemaps.foldl (fun d sm =>
    let xml := fetch_text w sm
    if xml ≠ "" then
      ((extract_urls_from_sitemap xml).filter (fun u => same_host u host)).foldl
        addUniq d
    else d) d0

/-- The `discovered` set of `crawl_site` just before the BFS loop: the
start URL, then the sitemap phase, then the WP REST phase. -/
def discoveredPreCrawl (w : World) (start host : String) : List String :=
  (enumerate_wordpress w start host).foldl addUniq
    (sitemapPhase w host (discover_sitemaps w start) [start])

/-- `crawl_site` from `app.py`: scheme validation (the 400 response is the
`.error` case), `max_pages` clamping, the homepage seed, the sitemap phase,
the WP REST phase, frontier seeding, the bounded BFS crawl, and the sorted
final output.  Python `set` iteration is modelled as insertion order;
the final output is sorted, so the result set does not depend on it.
The loop fuel strictly exceeds `loopMeasure`, which is proved sufficient
for the fuel value to be irrelevant. -/
def crawl_site (w : World) (start : String) (maxPagesReq : Int) :
    Except String CrawlResult :=
  if isPref "http".data (pyUrlsplitCore start.data []).scheme then
    let host := hostOf start
    let max_pages : Nat := (max 1 (min maxPagesReq 2000)).toNat
    let d2 := discoveredPreCrawl w start host
    let seeds := d2.filter (fun u => same_host u host)
    let s0 : CrawlState := ⟨seeds, [], d2, []⟩
    let sF := crawlLoop w host max_pages (seeds.length + 2 * max_pages + 1) s0
    let final := sortStr sF.discovered
    .ok ⟨start, final.length, final⟩
  else .error "start_url must be http(s)"

/-- The `discovered.update(u for u in extract_urls_from_sitemap(xml_text)
if same_host(u, host))` generator of `crawl_site` (app.py line 197) with
its error path: the `same_host` call is not wrapped, so its `ValueError`
escapes the request handler. -/
def sitemapUpdateE (host : String) : List String → List String →
    Except Unit (List String)
  | [], d => .ok d
  | u :: rest, d =>
    match same_hostE u host with
    | .error e => .error e
    | .ok true => sitemapUpdateE host rest (addUniq d u)
    | .ok false => sitemapUpdateE host rest d

/-- The sitemap phase of `crawl_site` with the error path of the
un-wrapped `same_host` filter. -/
def sitemapPhaseE (w : World) (host : String) :
    List String → List String → Except Unit (List String)
  | [], d => .ok d
  | sm :: rest, d =>
    match (if fetch_text w sm ≠ "" then
             sitemapUpdateE host (extract_urls_from_sitemap (fetch_text w sm)) d
           else .ok d) with
    | .error e => .error e
    | .ok d2 => sitemapPhaseE w host rest d2

/-- The frontier seeding `[u for u in discovered if same_host(u, host)]`
of `crawl_site` (app.py line 203) with the error path of the un-wrapped
`same_host` call. -/
def seedsFilterE (host : String) : List String → Except Unit (List String)
  | [] => .ok []
  | u :: rest =>
    match same_hostE u host with
    | .error e => .error e
    | .ok b =>
      match seedsFilterE host rest with
      | .error e => .error e
      | .ok tail => .ok (if b then u :: tail else tail)

/-- How a `/crawl_site` request can fail: the deliberate 400 response of
the scheme check, or an exception that escapes the handler (the
`ValueError` of `urllib.parse`, surfaced by the framework as a 500). -/
inductive EndpointErr where
  | badRequest (msg : String)
  | valueError

/-- `crawl_site` from `app.py` with every un-wrapped error path made
explicit: `urlparse(start)` (line 177), `discover_sitemaps` (robots
`normalize_url`, `urljoin`), the sitemap-phase `same_host` generator
(line 197), the `urljoin` at the top of the WP REST loop (line 150), and
the frontier-seeding `same_host` filter (line 203) can each raise; none
of those calls sits inside a `try/except`, so the raise escapes the
request handler as `.error .valueError`.  The BFS loop itself is reused
from `crawlLoop` unchanged: the only potentially-raising call in the
Python loop body is the `same_host(nl, host)` recheck at line 226, whose
arguments are outputs of `extract_links_from_html`, and
`extract_links_no_raise` below proves `same_hostE` succeeds (with value
`true`) on every such output, so the total `same_host` used by
`processLink` is a faithful model of that call. -/
def crawl_siteE (w : World) (start : String) (maxPagesReq : Int) :
    Except EndpointErr CrawlResult :=
  match pyUrlsplitE start.data [] with
  | .error _ => .error .valueError
  | .ok parsed =>
    if isPref "http".data parsed.scheme then
      match discover_sitemapsE w start with
      | .error _ => .error .valueError
      | .ok sitemaps =>
        match sitemapPhaseE w (⟨parsed.netloc⟩ : String) sitemaps [start] with
        | .error _ => .error .valueError
        | .ok d1 =>
          match enumerate_wordpressE w start (⟨parsed.netloc⟩ : String) with
          | .error _ => .error .valueError
          | .ok wps =>
            match seedsFilterE (⟨parsed.netloc⟩ : String) (wps.foldl addUniq d1) with
            | .error _ => .error .valueError
            | .ok seeds =>
              let host : String := ⟨parsed.netloc⟩
              let max_pages : Nat := (max 1 (min maxPagesReq 2000)).toNat
              let s0 : CrawlState := ⟨seeds, [], wps.foldl addUniq d1, []⟩
              let sF := crawlLoop w host max_pages
                (seeds.length + 2 * max_pages + 1) s0
              let final := sortStr sF.discovered
              .ok ⟨start, final.length, final⟩
    else .error (.badRequest "start_url must be http(s)")

/-- The links of a `crawl_site` response (empty for the 400 error). -/
def linksOf (e : Except String CrawlResult) : List String :=
  match e with
  | .ok r => r.links
  | .error _ => []

/-- The `link_count` field of a `crawl_site` response. -/
def linkCountOf (e : Except String CrawlResult) : Nat :=
  match e with
  | .ok r => r.link_count
  | .error _ => 0

def crawlOk (e : Except String CrawlResult) : Bool :=
  match e with
  | .ok _ => true
  | .error _ => false

/-- Python `str.strip()` on a `String`. -/
def pyStrip (s : String) : String := ⟨stripCore s.data⟩

/-! ## Spec-side models used to state refuted claims

These two definitions follow the words of the specification, not the code;
they exist only to exhibit, on concrete worlds, the gap between what the
spec claims and what the code does. -/

/-- One page request of the spec's paginated REST enumerator: the items of
a 200 JSON-list response, `none` otherwise. -/
def wpSpecPage (w : World) (url : String) : Option (List Json) :=
  match w url 0 with
  | .err => none
  | .resp st ct _ json =>
    if st = 200 ∧ isPref "application/json".data ct.data then
      match json with
      | .ok (.jarr items) => some items
      | _ => none
    else none

/-- Collect the same-host links of a page of items, skipping malformed
items (spec model; shares the per-item link extraction with the code). -/
def wpSpecCollect (host : String) (items : List Json)
    (acc : List String) : List String :=
  items.foldl (fun acc it =>
    match wpItemProcess host it with
    | .ok (some u) => addUniq acc u
    | _ => acc) acc

/-- Modelled from the spec: page through one collection with an
incrementing `page` number starting at 1, stopping on a failed request, an
empty page, or a page shorter than the page size (100), with an upper
bound of 20 pages. -/
def wpSpecPaginate (w : World) (root host collection : String) :
    Nat → Nat → List String → List String
  | 0, _, acc => acc
  | budget + 1, page, acc =>
    let url := pyUrljoin root (collection ++ "&page=" ++ toString page)
    match wpSpecPage w url with
    | none => acc
    | some items =>
      let acc' := wpSpecCollect host items acc
      if items.length < 100 ∨ items.length = 0 then acc'
      else wpSpecPaginate w root host collection budget (page + 1) acc'

/-- Modelled from the spec: the REST enumerator described by the claim —
probe a fixed capability-discovery endpoint (`/wp-json/`) first and return
the empty set immediately unless it succeeds; otherwise paginate the two
collections. -/
def enumerate_wordpress_claim (w : World) (root host : String) : List String :=
  match w (pyUrljoin root "/wp-json/") 0 with
  | .err => []
  | .resp st _ _ _ =>
    if 200 ≤ st ∧ st < 300 then
      wpSpecPaginate w root host WORDPRESS_REST_POSTS 20 1
        (wpSpecPaginate w root host WORDPRESS_REST_PAGES 20 1 [])
    else []

/-- Transient statuses named by the spec's retry policy. -/
def transientStatus (st : Nat) : Bool :=
  st == 429 || st == 500 || st == 502 || st == 503 || st == 504

/-- Modelled from the spec: a fetch that retries transient statuses and
network failures on successive attempts up to a fixed attempt ceiling
(3 here; any ceiling of at least 2 exhibits the same counterexample), then
yields no data.  The backoff delay is timing and is not modelled. -/
def fetch_text_retry (w : World) (u : String) : Nat → Nat → String
  | _, 0 => ""
  | attempt, budget + 1 =>
    match w u attempt with
    | .err => fetch_text_retry w u (attempt + 1) budget
    | .resp st _ body _ =>
      if 200 ≤ st ∧ st < 300 then body
      else if transientStatus st then fetch_text_retry w u (attempt + 1) budget
      else ""

def fetch_text_claim (w : World) (u : String) : String :=
  fetch_text_retry w u 0 3

/-! ## Concrete worlds used for counterexamples and witnesses -/

/-- A server that answers nothing at all. -/
def failW : World := fun _ _ => .err

/-- A server whose homepage carries three same-host links and which fails
every other request. -/
def w1 : World := fun u _ =>
  if u = "https://ex.com/" then
    .resp 200 "text/html"
      "<html><body><a href=\"https://ex.com/a\">x</a><a href=\"https://ex.com/b\">y</a><a href=\"https://ex.com/c\">z</a></body></html>"
      (.error ())
  else .err

/-- A reachable sitemap index whose single child sitemap lists two page
URLs. -/
def xmlIndex : String :=
  "<?xml version=\"1.0\" encoding=\"UTF-8\"?><sitemapindex><sitemap><loc>https://ex.com/child-sitemap.xml</loc></sitemap></sitemapindex>"

def xmlChild : String :=
  "<?xml version=\"1.0\" encoding=\"UTF-8\"?><urlset><url><loc>https://ex.com/page-one</loc></url><url><loc>https://ex.com/page-two</loc></url></urlset>"

/-- The sitemap-index scenario of the spec: `sitemap_index.xml` reachable,
REST probe failing with 404, and the crawl phase finding no new links. -/
def w3 : World := fun u _ =>
  if u = "https://ex.com/sitemap_index.xml" then
    .resp 200 "application/xml" xmlIndex (.error ())
  else if u = "https://ex.com/child-sitemap.xml" then
    .resp 200 "application/xml" xmlChild (.error ())
  else if u = "https://ex.com/" then
    .resp 200 "text/html"
      "<html><body>Welcome. No links here at all.</body></html>" (.error ())
  else .resp 404 "text/html" "not found" (.error ())

/-- A server on which every conceivable capability probe fails (every URL
except the pages collection answers 404), yet the pages collection itself
answers with one item. -/
def w4 : World := fun u _ =>
  if u = "https://ex.com/wp-json/wp/v2/pages?per_page=100" then
    .resp 200 "application/json" "json body elided"
      (.ok (.jarr [.jobj [("link", .jstr "https://ex.com/p1")]]))
  else .resp 404 "text/html" "not found" (.error ())

/-- Like `w4` but with a succeeding capability probe — used to witness that
the code's enumerator ignores every URL except the two collections. -/
def w4p : World := fun u n =>
  if u = "https://ex.com/wp-json/" then .resp 200 "application/json" "ok" (.ok .null)
  else w4 u n

/-- A URL whose first fetch attempt yields a transient 500 and whose
retries would succeed. -/
def w7 : World := fun u n =>
  if u = "https://ex.com/r" then
    (if n = 0 then .resp 500 "text/html" "server error" (.error ())
     else .resp 200 "text/html" "recovered" (.error ()))
  else .err

/-- A robots.txt whose `Sitemap:` line carries a URL with a mismatched
IPv6 bracket and a fragment: `normalize_url` raises `ValueError` on it at
the un-wrapped call in `discover_sitemaps`. -/
def w8 : World := fun u _ =>
  if u = "https://ex.com/robots.txt" then
    .resp 200 "text/plain" "Sitemap: http://[#f\n" (.error ())
  else .err

/-- One sitemap candidate path answering HTTP 500 while the homepage and
the robots.txt-advertised sitemap still answer — scenario world for the
error-absorption claim. -/
def w5 : World := fun u _ =>
  if u = "https://ex.com/sitemap.xml" then
    .resp 500 "text/html" "internal server error" (.error ())
  else if u = "https://ex.com/robots.txt" then
    .resp 200 "text/plain" "User-agent: *\nSitemap: https://ex.com/real-sitemap.xml\n" (.error ())
  else if u = "https://ex.com/real-sitemap.xml" then
    .resp 200 "application/xml"
      "<?xml version=\"1.0\"?><urlset><url><loc>https://ex.com/alpha</loc></url></urlset>"
      (.error ())
  else if u = "https://ex.com/" then
    .resp 200 "text/html" "<html><body>home</body></html>" (.error ())
  else if u = "https://ex.com/alpha" then
    .resp 200 "text/html" "<html><body>alpha</body></html>" (.error ())
  else .resp 404 "text/html" "not found" (.error ())

/-- Whether a response makes `fetch_text` take its exception path: a
network failure or a non-2xx status. -/
def respFails : HttpResp → Bool
  | .err => true
  | .resp st _ _ _ => st < 200 || 300 ≤ st

/-- A world agreeing with `w7` on attempt 0 but failing on all retries. -/
def w7b : World := fun u n =>
  if u = "https://ex.com/r" ∧ n = 0 then
    .resp 500 "text/html" "server error" (.error ())
  else .err

/-- Initial crawl state used in closed witnesses. -/
def stWitness : CrawlState :=
  ⟨["https://ex.com/"], [], ["https://ex.com/"], []⟩

/-- A crawl state that has already reached the page cap. -/
def stCapped : CrawlState :=
  ⟨["https://ex.com/a"], [], ["https://ex.com/a", "https://ex.com/b"], []⟩

/-! # Theorems -/

set_option maxRecDepth 8000

/-! ## Helper lemmas about `isPref`, `splitAtChar` and `stripCore` -/

theorem isPref_iff_append {p l : List Char} :
    isPref p l = true ↔ ∃ t, l = p ++ t := by
  induction p generalizing l with
  | nil => simp [isPref]
  | cons a as ih =>
    cases l with
    | nil => simp [isPref]
    | cons b bs =>
      simp only [isPref, Bool.and_eq_true, beq_iff_eq, ih, List.cons_append]
      constructor
      · rintro ⟨rfl, t, rfl⟩; exact ⟨t, rfl⟩
      · rintro ⟨t, h⟩
        obtain ⟨rfl, rfl⟩ : a = b ∧ bs = as ++ t := by
          constructor
          · exact (List.cons.injEq .. ▸ h).1.symm
          · exact (List.cons.injEq .. ▸ h).2
        exact ⟨rfl, t, rfl⟩

theorem splitAtChar_spec {c : Char} : ∀ {l a b : List Char},
    splitAtChar c l = some (a, b) → l = a ++ c :: b ∧ c ∉ a := by
  intro l
  induction l with
  | nil => intro a b h; simp [splitAtChar] at h
  | cons x xs ih =>
    intro a b h
    rw [splitAtChar] at h
    by_cases hx : (x == c) = true
    · rw [if_pos hx] at h
      injection h with h
      injection h with h1 h2
      subst h2
      cases h1
      refine ⟨?_, by simp⟩
      rw [eq_of_beq hx]
      rfl
    · rw [if_neg hx] at h
      cases hsp : splitAtChar c xs with
      | none => rw [hsp] at h; simp at h
      | some p =>
        obtain ⟨a2, b2⟩ := p
        rw [hsp] at h
        injection h with h
        injection h with h1 h2
        subst h2
        cases h1
        obtain ⟨ih1, ih2⟩ := ih hsp
        refine ⟨by rw [List.cons_append, ← ih1], ?_⟩
        intro hc
        rcases List.mem_cons.mp hc with hcx | hcm
        · exact hx (by rw [hcx]; exact beq_self_eq_true x)
        · exact ih2 hcm

theorem splitAtChar_eq {c : Char} {l a b : List Char}
    (h : splitAtChar c l = some (a, b)) : l = a ++ c :: b :=
  (splitAtChar_spec h).1

theorem splitAtChar_fst {c : Char} {l a b : List Char}
    (h : splitAtChar c l = some (a, b)) : c ∉ a :=
  (splitAtChar_spec h).2

theorem splitAtChar_none {c : Char} {l : List Char}
    (h : splitAtChar c l = none) : c ∉ l := by
  induction l with
  | nil => simp
  | cons x xs ih =>
    by_cases hx : x == c
    · simp [splitAtChar, hx] at h
    · simp [splitAtChar, hx] at h
      match hsp : splitAtChar c xs with
      | none =>
        intro hmem
        rcases List.mem_cons.mp hmem with rfl | hmem
        · exact hx (beq_self_eq_true c)
        · exact ih hsp hmem
      | some p => rw [hsp] at h; simp at h

theorem stripCore_mem {x : Char} {l : List Char} (h : x ∈ stripCore l) :
    x ∈ l := by
  unfold stripCore at h
  have h1 := (List.dropWhile_sublist pyWs).subset (List.mem_reverse.mp h)
  exact (List.dropWhile_sublist pyWs).subset (List.mem_reverse.mp h1)


theorem toLower_hash {c : Char} (h : c.toLower = '#') : c = '#' := by
  have h' : (if 65 ≤ c.toNat ∧ c.toNat ≤ 90 then Char.ofNat (c.toNat + 32) else c) = '#' := h
  by_cases hc : 65 ≤ c.toNat ∧ c.toNat ≤ 90
  · rw [if_pos hc] at h'
    exfalso
    obtain ⟨h1, h2⟩ := hc
    set n := c.toNat with hn
    interval_cases n <;> exact absurd h' (by decide)
  · rwa [if_neg hc] at h'

theorem hash_not_mem_toLowerL {pre : List Char}
    (hpre : pre.all schemeChar = true) : '#' ∉ toLowerL pre := by
  intro h
  obtain ⟨c, hc, hlc⟩ := List.mem_map.mp h
  have : c = '#' := toLower_hash hlc
  subst this
  have := (List.all_eq_true.mp hpre) _ hc
  simp [schemeChar] at this

theorem splitOnceAt_fst_not_mem (c : Char) (l : List Char) :
    c ∉ (splitOnceAt c l).1 := by
  unfold splitOnceAt
  cases h : splitAtChar c l with
  | none => exact splitAtChar_none h
  | some p =>
    obtain ⟨a, b⟩ := p
    exact splitAtChar_fst h

theorem splitOnceAt_fst_sub {c x : Char} {l : List Char}
    (h : x ∈ (splitOnceAt c l).1) : x ∈ l := by
  unfold splitOnceAt at h
  cases hs : splitAtChar c l with
  | none => rwa [hs] at h
  | some p =>
    obtain ⟨a, b⟩ := p
    rw [hs] at h
    rw [splitAtChar_eq hs]
    exact List.mem_append.mpr (Or.inl h)

theorem splitOnceAt_snd_sub {c x : Char} {l : List Char}
    (h : x ∈ (splitOnceAt c l).2) : x ∈ l := by
  unfold splitOnceAt at h
  cases hs : splitAtChar c l with
  | none => rw [hs] at h; simp at h
  | some p =>
    obtain ⟨a, b⟩ := p
    rw [hs] at h
    rw [splitAtChar_eq hs]
    exact List.mem_append.mpr (Or.inr (List.mem_cons_of_mem _ h))

theorem schemeSplit_no_hash {dsch url1 : List Char} (hd : '#' ∉ dsch) :
    '#' ∉ (schemeSplit dsch url1).1 := by
  unfold schemeSplit
  cases hs : splitAtChar ':' url1 with
  | none => exact hd
  | some p =>
    obtain ⟨pre, post⟩ := p
    dsimp only
    split
    next hcond => exact hash_not_mem_toLowerL hcond.2.2
    next => exact hd

theorem netlocSplit_no_hash (rest : List Char) :
    '#' ∉ (netlocSplit rest).1 := by
  unfold netlocSplit
  split
  · intro hx
    have := List.mem_takeWhile_imp hx
    simp at this
  · simp

/-- All four non-fragment components of `pyUrlsplitCore l []` are free of
`'#'`. -/
theorem urlsplit_no_hash (l : List Char) :
    '#' ∉ (pyUrlsplitCore l []).scheme ∧ '#' ∉ (pyUrlsplitCore l []).netloc ∧
    '#' ∉ (pyUrlsplitCore l []).path ∧ '#' ∉ (pyUrlsplitCore l []).query := by
  unfold pyUrlsplitCore
  refine ⟨schemeSplit_no_hash (by decide), netlocSplit_no_hash _, ?_, ?_⟩
  · intro hx
    exact splitOnceAt_fst_not_mem '#' _ (splitOnceAt_fst_sub hx)
  · intro hx
    exact splitOnceAt_fst_not_mem '#' _ (splitOnceAt_snd_sub hx)


theorem mem_unsplitNetlocPart {x : Char} {nl pa : List Char}
    (h : x ∈ unsplitNetlocPart nl pa) : x ∈ nl ∨ x ∈ pa ∨ x = '/' := by
  unfold unsplitNetlocPart at h
  split at h
  · simp only [List.mem_cons, List.mem_append] at h
    rcases h with rfl | h
    · right; right; rfl
    rcases h with rfl | h
    · right; right; rfl
    rcases h with h | h
    · exact Or.inl h
    split at h
    · rcases List.mem_cons.mp h with rfl | h
      · right; right; rfl
      · right; left; exact h
    · right; left; exact h
  · right; left; exact h

/-- Membership in an `urlunsplit` of fragment-free parts comes from one of
the four components or a separator. -/
theorem mem_unsplit_no_frag {p : UrlParts} (hf : p.fragment = []) {x : Char}
    (hx : x ∈ pyUrlunsplitCore p) :
    x ∈ p.scheme ∨ x ∈ p.netloc ∨ x ∈ p.path ∨ x ∈ p.query ∨
    x = '/' ∨ x = ':' ∨ x = '?' := by
  unfold pyUrlunsplitCore at hx
  rw [hf, if_neg (by simp)] at hx
  have hurl2 : ∀ y : Char,
      y ∈ (if p.scheme ≠ [] then p.scheme ++ ':' :: unsplitNetlocPart p.netloc p.path
           else unsplitNetlocPart p.netloc p.path) →
      y ∈ p.scheme ∨ y ∈ p.netloc ∨ y ∈ p.path ∨ y = '/' ∨ y = ':' := by
    intro y hy
    split at hy
    · rcases List.mem_append.mp hy with h | h
      · exact Or.inl h
      rcases List.mem_cons.mp h with rfl | h
      · right; right; right; right; rfl
      · rcases mem_unsplitNetlocPart h with h | h | h <;> tauto
    · rcases mem_unsplitNetlocPart hy with h | h | h <;> tauto
  split at hx
  · rcases List.mem_append.mp hx with h | h
    · rcases hurl2 _ h with h | h | h | h | h <;> tauto
    rcases List.mem_cons.mp h with rfl | h
    · tauto
    · tauto
  · rcases hurl2 _ hx with h | h | h | h | h <;> tauto

/-- The result of `urldefrag` never contains `'#'`. -/
theorem hash_not_mem_defrag (l : List Char) : '#' ∉ pyUrldefragCore l := by
  unfold pyUrldefragCore
  split
  · intro hx
    have h4 := urlsplit_no_hash l
    have hcases := mem_unsplit_no_frag rfl hx
    rcases hcases with h | h | h | h | h | h | h
    · exact h4.1 h
    · exact h4.2.1 h
    · exact h4.2.2.1 h
    · exact h4.2.2.2 h
    all_goals simp at h
  · next hni => exact hni

theorem isPref_append_self (p t : List Char) : isPref p (p ++ t) = true :=
  isPref_iff_append.mpr ⟨t, rfl⟩

theorem startsHttp_cases {u : List Char} (h : startsHttp u = true) :
    (∃ t, u = "http://".data ++ t) ∨ (∃ t, u = "https://".data ++ t) := by
  rcases Bool.or_eq_true _ _ |>.mp h with h' | h'
  · exact Or.inl (isPref_iff_append.mp h')
  · exact Or.inr (isPref_iff_append.mp h')

theorem badScheme_false_of_startsHttp {u : List Char} (h : startsHttp u = true) :
    badScheme u = false := by
  rcases startsHttp_cases h with ⟨t, rfl⟩ | ⟨t, rfl⟩ <;>
    simp [badScheme, toLowerL, isPref,
      show Char.toLower 'h' = 'h' from by decide,
      show ('m' == 'h') = false from by decide,
      show ('t' == 'h') = false from by decide,
      show ('j' == 'h') = false from by decide]

theorem stripCore_append_of {p t : List Char}
    (h1 : (p ++ t).dropWhile pyWs = p ++ t)
    (h2 : p.reverse.dropWhile pyWs = p.reverse) :
    stripCore (p ++ t) = p ++ (t.reverse.dropWhile pyWs).reverse := by
  unfold stripCore
  rw [h1, List.reverse_append, List.dropWhile_append]
  by_cases he : (t.reverse.dropWhile pyWs).isEmpty
  · rw [if_pos he, h2, List.reverse_reverse]
    rw [List.isEmpty_iff.mp he]
    simp
  · rw [if_neg he, List.reverse_append, List.reverse_reverse]

theorem startsHttp_stripCore {u : List Char} (h : startsHttp u = true) :
    startsHttp (stripCore u) = true := by
  rcases startsHttp_cases h with ⟨t, rfl⟩ | ⟨t, rfl⟩
  · rw [stripCore_append_of (by
      show List.dropWhile pyWs ('h' :: _) = _
      rw [List.dropWhile_cons_of_neg (by decide)]
      rfl) (by decide)]
    exact Bool.or_eq_true _ _ |>.mpr (Or.inl (isPref_append_self _ _))
  · rw [stripCore_append_of (by
      show List.dropWhile pyWs ('h' :: _) = _
      rw [List.dropWhile_cons_of_neg (by decide)]
      rfl) (by decide)]
    exact Bool.or_eq_true _ _ |>.mpr (Or.inr (isPref_append_self _ _))

theorem hash_not_mem_normCore (l : List Char) : '#' ∉ normCore l := by
  unfold normCore
  by_cases h1 : startsHttp (pyUrldefragCore (stripCore l)) = true
  · rw [if_pos h1]
    by_cases h2 : badScheme (pyUrldefragCore (stripCore l)) = true
    · rw [if_pos h2]; simp
    · rw [if_neg h2]
      exact hash_not_mem_defrag _
  · rw [if_neg h1]; simp

theorem normCore_idem_strip (l : List Char) :
    normCore (normCore l) = stripCore (normCore l) := by
  by_cases h1 : startsHttp (pyUrldefragCore (stripCore l)) = true
  · have hb := badScheme_false_of_startsHttp h1
    have hr : normCore l = pyUrldefragCore (stripCore l) := by
      unfold normCore
      rw [if_pos h1, if_neg (by simp [hb])]
    rw [hr]
    set u := pyUrldefragCore (stripCore l) with hu
    have hhash : '#' ∉ u := hash_not_mem_defrag _
    have hhash2 : '#' ∉ stripCore u := fun hm => hhash (stripCore_mem hm)
    have hstrip : startsHttp (stripCore u) = true := startsHttp_stripCore h1
    have hdf : pyUrldefragCore (stripCore u) = stripCore u := by
      unfold pyUrldefragCore
      rw [if_neg hhash2]
    unfold normCore
    rw [hdf, if_pos hstrip,
      if_neg (by simp [badScheme_false_of_startsHttp hstrip])]
  · have hr : normCore l = [] := by
      unfold normCore
      rw [if_neg h1]
    rw [hr]
    rfl

/-- Shape of the non-raising value component of `normalize_url`: empty,
or an absolute fragment-free `http(s)` value not matching the scheme
regex. -/
theorem normCore_shape (l : List Char) :
    normCore l = [] ∨
    (startsHttp (normCore l) = true ∧ '#' ∉ normCore l ∧
     badScheme (normCore l) = false) := by
  by_cases h1 : startsHttp (pyUrldefragCore (stripCore l)) = true
  · right
    have hb := badScheme_false_of_startsHttp h1
    have hdat : normCore l = pyUrldefragCore (stripCore l) := by
      unfold normCore
      rw [if_pos h1, if_neg (by simp [hb])]
    rw [hdat]
    exact ⟨h1, hash_not_mem_defrag _, hb⟩
  · left
    unfold normCore
    rw [if_neg h1]

/-- Claim C9 counterexample: `normalize_url` is not idempotent.  On
`"http://a.com/x #f"` the first application removes the fragment and
returns `"http://a.com/x "` with a trailing space (Python's `urldefrag`
does not strip), while the second application strips that space. -/
theorem claim_C9_counterexample :
    normalize_url (normalize_url "http://a.com/x #f") ≠
      normalize_url "http://a.com/x #f" := by decide

/-- Claim C9 (corrected): a second application of `normalize_url` equals
Python `str.strip()` of the first result — idempotence holds exactly when
the first result carries no trailing whitespace (in particular on every
fragment-free input), and fails otherwise because fragment removal can
expose whitespace that precedes the `'#'`. -/
theorem claim_C9_normalize_idem_up_to_strip (s : String) :
    normalize_url (normalize_url s) = pyStrip (normalize_url s) :=
  congrArg String.mk (normCore_idem_strip s.data)

/-- Claim C10 (confirmed): the `mailto:`/`tel:`/`javascript:` regex branch
of `normalize_url` is unreachable — the function agrees everywhere with the
variant that omits the regex check, because a string with an `http://` or
`https://` prefix starts with `'h'` and therefore cannot match the anchored
case-insensitive scheme alternatives. -/
theorem claim_C10_regex_branch_unreachable (s : String) :
    normalize_url s = normalize_url_noRegex s := by
  suffices h : normCore s.data = normCoreNoRegex s.data from congrArg String.mk h
  unfold normCore normCoreNoRegex
  by_cases h1 : startsHttp (pyUrldefragCore (stripCore s.data)) = true
  · rw [if_pos h1, if_pos h1,
      if_neg (by simp [badScheme_false_of_startsHttp h1])]
  · rw [if_neg h1, if_neg h1]

/-- Claim C1 counterexample: with `max_pages = 2` (so `N = 2 ≥ 1` and the
clamp of `N` into `[1, 2000]` is `2`), a start page carrying three links
yields a result with 4 links — the output is not truncated to `maxPages`. -/
theorem claim_C1_counterexample :
    (linksOf (crawl_site w1 "https://ex.com/" 2)).length = 4 ∧
    ¬ ((linksOf (crawl_site w1 "https://ex.com/" 2)).length ≤ 2) := by decide

/-- Claim C1 (corrected): the clamp of `max_pages` only gates the crawl
loop — once `|discovered| ≥ max_pages` the loop does nothing further — but
the final output is the whole sorted discovered set without truncation:
`link_count` always equals the full length of `links`, which can exceed
`N` (see the counterexample). -/
theorem claim_C1_cap_gates_loop_but_output_untruncated :
    (∀ (w : World) (host : String) (mp fuel : Nat) (s : CrawlState),
      mp ≤ s.discovered.length → crawlLoop w host mp fuel s = s) ∧
    (∀ (w : World) (start : String) (N : Int) (r : CrawlResult),
      crawl_site w start N = .ok r → r.link_count = r.links.length) := by
  constructor
  · intro w host mp fuel s h
    cases fuel with
    | zero => rfl
    | succ n =>
      show (if s.toVisit = [] ∨ mp ≤ s.discovered.length then s else _) = s
      rw [if_pos (Or.inr h)]
  · intro w start N r h
    unfold crawl_site at h
    split at h
    · injection h with h2
      rw [← h2]
    · exact absurd h (by simp)

theorem claim_C1_witness :
    crawlLoop failW "ex.com" 2 5 stCapped = stCapped ∧
    (⟨"https://ex.com/", 1, ["https://ex.com/"]⟩ : CrawlResult).link_count =
      (⟨"https://ex.com/", 1, ["https://ex.com/"]⟩ : CrawlResult).links.length :=
  ⟨claim_C1_cap_gates_loop_but_output_untruncated.1 failW "ex.com" 2 5 stCapped
      (by decide),
   claim_C1_cap_gates_loop_but_output_untruncated.2 failW "https://ex.com/" 5
      ⟨"https://ex.com/", 1, ["https://ex.com/"]⟩ rfl⟩

/-- Claim C3 counterexample: in the spec's sitemap-index scenario the
result has `link_count = 2`, not 3, and the two page URLs listed by the
child sitemap are absent — while the child sitemap URL itself is one of
the results. -/
theorem claim_C3_counterexample :
    linkCountOf (crawl_site w3 "https://ex.com/" 100) = 2 ∧
    linkCountOf (crawl_site w3 "https://ex.com/" 100) ≠ 3 ∧
    "https://ex.com/page-one" ∉ linksOf (crawl_site w3 "https://ex.com/" 100) ∧
    "https://ex.com/page-two" ∉ linksOf (crawl_site w3 "https://ex.com/" 100) := by
  decide

/-- Claim C3 (corrected): sitemap resolution does not recurse into sitemap
indices — every `<loc>` entry of a fetched sitemap, including child
sitemap locations, is added directly as a result URL.  In the scenario the
result is exactly the start URL plus the child sitemap URL, with
`link_count = 2`. -/
theorem claim_C3_index_entries_not_expanded :
    crawl_site w3 "https://ex.com/" 100 =
      .ok ⟨"https://ex.com/", 2,
        ["https://ex.com/", "https://ex.com/child-sitemap.xml"]⟩ := rfl

/-- Claim C4 counterexample: on a server where every URL except the pages
collection fails with 404 — so no capability probe can succeed — the
code's enumerator still returns a link, while the enumerator described by
the claim returns the empty set. -/
theorem claim_C4_counterexample :
    enumerate_wordpress w4 "https://ex.com/" "ex.com" = ["https://ex.com/p1"] ∧
    enumerate_wordpress_claim w4 "https://ex.com/" "ex.com" = [] ∧
    (["https://ex.com/p1"] : List String) ≠ [] := by decide

/-- Claim C4 (corrected): the REST enumerator performs no capability probe
and no pagination — its result depends only on the single response of each
of the two fixed collection URLs (`per_page=100`, no `page` parameter),
each fetched exactly once. -/
theorem claim_C4_no_probe_no_pagination (w w' : World) (root host : String)
    (h1 : w (pyUrljoin root WORDPRESS_REST_PAGES) 0 =
          w' (pyUrljoin root WORDPRESS_REST_PAGES) 0)
    (h2 : w (pyUrljoin root WORDPRESS_REST_POSTS) 0 =
          w' (pyUrljoin root WORDPRESS_REST_POSTS) 0) :
    enumerate_wordpress w root host = enumerate_wordpress w' root host := by
  unfold enumerate_wordpress wpEndpoint wpEndpointBody
  rw [h1, h2]

theorem claim_C4_witness :
    enumerate_wordpress w4 "https://ex.com/" "ex.com" =
      enumerate_wordpress w4p "https://ex.com/" "ex.com" :=
  claim_C4_no_probe_no_pagination w4 w4p "https://ex.com/" "ex.com" rfl rfl

/-- Claim C7 counterexample: a URL whose first attempt answers 500 and
whose retries would succeed yields the empty string from `fetch_text`,
while the retrying fetch described by the claim recovers the body — the
code performs no retry. -/
theorem claim_C7_counterexample :
    fetch_text w7 "https://ex.com/r" = "" ∧
    fetch_text_claim w7 "https://ex.com/r" = "recovered" ∧
    ("" : String) ≠ "recovered" := by decide

/-- Claim C7 (corrected): every fetch is attempted exactly once —
`fetch_text` depends only on the first attempt's response, and any
network failure or non-2xx status (429 and 5xx included) immediately
yields the empty string with no retry and no backoff. -/
theorem claim_C7_single_attempt_no_retry (w w' : World) (u : String)
    (h : w u 0 = w' u 0) (hfail : respFails (w u 0) = true) :
    fetch_text w u = fetch_text w' u ∧ fetch_text w u = "" := by
  constructor
  · unfold fetch_text
    rw [h]
  · unfold fetch_text
    cases hw : w u 0 with
    | err => rfl
    | resp st ct body j =>
      rw [hw] at hfail
      simp only [respFails, Bool.or_eq_true, decide_eq_true_eq] at hfail
      show (if 200 ≤ st ∧ st < 300 then body else "") = ""
      rw [if_neg (by omega)]

theorem claim_C7_witness :
    fetch_text w7 "https://ex.com/r" = fetch_text w7b "https://ex.com/r" ∧
    fetch_text w7 "https://ex.com/r" = "" :=
  claim_C7_single_attempt_no_retry w7 w7b "https://ex.com/r" rfl rfl

/-! ## Membership and measure lemmas for the crawl loop -/

theorem mem_addUniq {l : List String} {x y : String} :
    x ∈ addUniq l y ↔ x ∈ l ∨ x = y := by
  unfold addUniq
  split
  · constructor
    · exact Or.inl
    · rintro (h | rfl)
      · exact h
      · assumption
  · simp

theorem addUniq_sub {l : List String} {x : String} (y : String)
    (hx : x ∈ l) : x ∈ addUniq l y :=
  mem_addUniq.mpr (Or.inl hx)

theorem foldl_addUniq_sub {x : String} :
    ∀ (L : List String) (acc : List String), x ∈ acc → x ∈ L.foldl addUniq acc
  | [], _, hx => hx
  | _ :: ys, acc, hx => foldl_addUniq_sub ys (addUniq acc _) (addUniq_sub _ hx)

theorem mem_foldl_addUniq {x : String} :
    ∀ (L : List String) (acc : List String),
      x ∈ L.foldl addUniq acc → x ∈ acc ∨ x ∈ L := by
  intro L
  induction L with
  | nil => exact fun acc h => Or.inl h
  | cons y ys ih =>
    intro acc h
    rcases ih (addUniq acc y) h with h2 | h2
    · rcases mem_addUniq.mp h2 with h3 | rfl
      · exact Or.inl h3
      · exact Or.inr (List.mem_cons_self _ _)
    · exact Or.inr (List.mem_cons_of_mem _ h2)

theorem processLink_eq (host : String) (mp : Nat) (disc tv : List String)
    (nl : String) :
    processLink host mp (disc, tv) nl =
      if nl ∈ disc then (disc, tv)
      else if same_host nl host then
        (disc ++ [nl], if (disc ++ [nl]).length < mp then tv ++ [nl] else tv)
      else (disc, tv) := rfl

theorem processLink_fst_sub (host : String) (mp : Nat)
    (q : List String × List String) (nl : String) {x : String}
    (hx : x ∈ q.1) : x ∈ (processLink host mp q nl).1 := by
  obtain ⟨disc, tv⟩ := q
  rw [processLink_eq]
  split_ifs
  · exact hx
  · exact List.mem_append.mpr (Or.inl hx)
  · exact List.mem_append.mpr (Or.inl hx)
  · exact hx

theorem processLink_fst_new (host : String) (mp : Nat)
    (q : List String × List String) (nl : String) {x : String}
    (hx : x ∈ (processLink host mp q nl).1) :
    x ∈ q.1 ∨ same_host x host = true := by
  obtain ⟨disc, tv⟩ := q
  rw [processLink_eq] at hx
  split_ifs at hx with h1 h2 h3
  · exact Or.inl hx
  · rcases List.mem_append.mp hx with h | h
    · exact Or.inl h
    · rcases List.mem_cons.mp h with rfl | h
      · exact Or.inr h2
      · simp at h
  · rcases List.mem_append.mp hx with h | h
    · exact Or.inl h
    · rcases List.mem_cons.mp h with rfl | h
      · exact Or.inr h2
      · simp at h
  · exact Or.inl hx

theorem processLink_measure (host : String) (mp : Nat)
    (q : List String × List String) (nl : String) :
    (processLink host mp q nl).2.length +
      2 * (mp - (processLink host mp q nl).1.length) ≤
    q.2.length + 2 * (mp - q.1.length) := by
  obtain ⟨disc, tv⟩ := q
  rw [processLink_eq]
  split_ifs with h1 h2 h3
  · exact Nat.le_refl _
  · simp only [List.length_append, List.length_cons, List.length_nil] at h3 ⊢
    omega
  · simp only [List.length_append, List.length_cons, List.length_nil] at *
    omega
  · exact Nat.le_refl _

theorem processLink_phi (host : String) (mp : Nat)
    (q : List String × List String) (nl : String) :
    (processLink host mp q nl).2.length +
      (mp - (processLink host mp q nl).1.length) ≤
    q.2.length + (mp - q.1.length) := by
  obtain ⟨disc, tv⟩ := q
  rw [processLink_eq]
  split_ifs with h1 h2 h3
  · exact Nat.le_refl _
  · simp only [List.length_append, List.length_cons, List.length_nil] at h3 ⊢
    omega
  · simp only [List.length_append, List.length_cons, List.length_nil] at *
    omega
  · exact Nat.le_refl _

theorem plFold_fst_sub (host : String) (mp : Nat) :
    ∀ (L : List String) (q : List String × List String) {x : String},
      x ∈ q.1 → x ∈ (L.foldl (processLink host mp) q).1
  | [], _, _, hx => hx
  | nl :: ls, q, _, hx =>
    plFold_fst_sub host mp ls (processLink host mp q nl)
      (processLink_fst_sub host mp q nl hx)

theorem plFold_fst_new (host : String) (mp : Nat) :
    ∀ (L : List String) (q : List String × List String) (x : String),
      x ∈ (L.foldl (processLink host mp) q).1 →
      x ∈ q.1 ∨ same_host x host = true := by
  intro L
  induction L with
  | nil => exact fun q x hx => Or.inl hx
  | cons nl ls ih =>
    intro q x hx
    rcases ih (processLink host mp q nl) x hx with h | h
    · exact processLink_fst_new host mp q nl h
    · exact Or.inr h

theorem plFold_measure (host : String) (mp : Nat) :
    ∀ (L : List String) (q : List String × List String),
      (L.foldl (processLink host mp) q).2.length +
        2 * (mp - (L.foldl (processLink host mp) q).1.length) ≤
      q.2.length + 2 * (mp - q.1.length)
  | [], _ => Nat.le_refl _
  | nl :: ls, q =>
    Nat.le_trans (plFold_measure host mp ls (processLink host mp q nl))
      (processLink_measure host mp q nl)

theorem plFold_phi (host : String) (mp : Nat) :
    ∀ (L : List String) (q : List String × List String),
      (L.foldl (processLink host mp) q).2.length +
        (mp - (L.foldl (processLink host mp) q).1.length) ≤
      q.2.length + (mp - q.1.length)
  | [], _ => Nat.le_refl _
  | nl :: ls, q =>
    Nat.le_trans (plFold_phi host mp ls (processLink host mp q nl))
      (processLink_phi host mp q nl)

theorem processPage_eq (host : String) (mp : Nat)
    (q : List String × List String) (u text : String) :
    processPage host mp q (u, text) =
      if text = "" then q
      else (extract_links_from_html text u host).foldl (processLink host mp) q := by
  obtain ⟨disc, tv⟩ := q
  rfl

theorem processPage_fst_sub (host : String) (mp : Nat)
    (q : List String × List String) (r : String × String) {x : String}
    (hx : x ∈ q.1) : x ∈ (processPage host mp q r).1 := by
  obtain ⟨u, text⟩ := r
  rw [processPage_eq]
  split
  · exact hx
  · exact plFold_fst_sub host mp _ q hx

theorem processPage_fst_new (host : String) (mp : Nat)
    (q : List String × List String) (r : String × String) (x : String)
    (hx : x ∈ (processPage host mp q r).1) :
    x ∈ q.1 ∨ same_host x host = true := by
  obtain ⟨u, text⟩ := r
  rw [processPage_eq] at hx
  split at hx
  · exact Or.inl hx
  · exact plFold_fst_new host mp _ q x hx

theorem processPage_measure (host : String) (mp : Nat)
    (q : List String × List String) (r : String × String) :
    (processPage host mp q r).2.length +
      2 * (mp - (processPage host mp q r).1.length) ≤
    q.2.length + 2 * (mp - q.1.length) := by
  obtain ⟨u, text⟩ := r
  rw [processPage_eq]
  split
  · exact Nat.le_refl _
  · exact plFold_measure host mp _ q

theorem processPage_phi (host : String) (mp : Nat)
    (q : List String × List String) (r : String × String) :
    (processPage host mp q r).2.length +
      (mp - (processPage host mp q r).1.length) ≤
    q.2.length + (mp - q.1.length) := by
  obtain ⟨u, text⟩ := r
  rw [processPage_eq]
  split
  · exact Nat.le_refl _
  · exact plFold_phi host mp _ q

theorem ppFold_fst_sub (host : String) (mp : Nat) :
    ∀ (L : List (String × String)) (q : List String × List String)
      {x : String}, x ∈ q.1 → x ∈ (L.foldl (processPage host mp) q).1
  | [], _, _, hx => hx
  | r :: rs, q, _, hx =>
    ppFold_fst_sub host mp rs (processPage host mp q r)
      (processPage_fst_sub host mp q r hx)

theorem ppFold_fst_new (host : String) (mp : Nat) :
    ∀ (L : List (String × String)) (q : List String × List String)
      (x : String), x ∈ (L.foldl (processPage host mp) q).1 →
      x ∈ q.1 ∨ same_host x host = true := by
  intro L
  induction L with
  | nil => exact fun q x hx => Or.inl hx
  | cons r rs ih =>
    intro q x hx
    rcases ih (processPage host mp q r) x hx with h | h
    · exact processPage_fst_new host mp q r x h
    · exact Or.inr h

theorem ppFold_measure (host : String) (mp : Nat) :
    ∀ (L : List (String × String)) (q : List String × List String),
      (L.foldl (processPage host mp) q).2.length +
        2 * (mp - (L.foldl (processPage host mp) q).1.length) ≤
      q.2.length + 2 * (mp - q.1.length)
  | [], _ => Nat.le_refl _
  | r :: rs, q =>
    Nat.le_trans (ppFold_measure host mp rs (processPage host mp q r))
      (processPage_measure host mp q r)

theorem ppFold_phi (host : String) (mp : Nat) :
    ∀ (L : List (String × String)) (q : List String × List String),
      (L.foldl (processPage host mp) q).2.length +
        (mp - (L.foldl (processPage host mp) q).1.length) ≤
      q.2.length + (mp - q.1.length)
  | [], _ => Nat.le_refl _
  | r :: rs, q =>
    Nat.le_trans (ppFold_phi host mp rs (processPage host mp q r))
      (processPage_phi host mp q r)

/-- Full specification of `drain`: frontier shrinks, batch-plus-frontier
is bounded, visited only grows, batched URLs are visited, the batch has no
duplicates, and every batched URL was either already in the batch
accumulator or unvisited on entry. -/
theorem drain_spec :
    ∀ (tv vis batch : List String), batch.Nodup →
      (∀ x ∈ batch, x ∈ vis) →
      (drain tv vis batch).2.1.length ≤ tv.length ∧
      (drain tv vis batch).1.length + (drain tv vis batch).2.1.length ≤
        batch.length + tv.length ∧
      (∀ x ∈ vis, x ∈ (drain tv vis batch).2.2) ∧
      (∀ x ∈ (drain tv vis batch).1, x ∈ (drain tv vis batch).2.2) ∧
      (drain tv vis batch).1.Nodup ∧
      (∀ x ∈ (drain tv vis batch).1, x ∈ batch ∨ x ∉ vis) := by
  intro tv
  induction tv with
  | nil =>
    intro vis batch hnd hbv
    exact ⟨Nat.le_refl _, by simp [drain], fun x hx => hx, hbv, hnd,
      fun x hx => Or.inl hx⟩
  | cons url rest ih =>
    intro vis batch hnd hbv
    show _ ∧ _
    unfold drain
    split_ifs with h10 hvis
    · exact ⟨Nat.le_refl _, Nat.le_refl _, fun x hx => hx, hbv, hnd,
        fun x hx => Or.inl hx⟩
    · obtain ⟨i1, i2, i3, i4, i5, i6⟩ := ih vis batch hnd hbv
      exact ⟨Nat.le_trans i1 (Nat.le_succ _), by
          simpa using Nat.le_trans i2 (by simp [Nat.le_succ]),
        i3, i4, i5, i6⟩
    · have hnd' : (batch ++ [url]).Nodup := by
        rw [List.nodup_append]
        exact ⟨hnd, List.nodup_singleton _,
          fun a ha => by
            simp only [List.mem_singleton]
            rintro rfl
            exact hvis (hbv _ ha)⟩
      have hbv' : ∀ x ∈ batch ++ [url], x ∈ url :: vis := by
        intro x hx
        rcases List.mem_append.mp hx with h | h
        · exact List.mem_cons_of_mem _ (hbv _ h)
        · rcases List.mem_singleton.mp h with rfl
          exact List.mem_cons_self _ _
      obtain ⟨i1, i2, i3, i4, i5, i6⟩ := ih (url :: vis) (batch ++ [url]) hnd' hbv'
      refine ⟨Nat.le_trans i1 (Nat.le_succ _), ?_, ?_, i4, i5, ?_⟩
      · simp only [List.length_append, List.length_cons, List.length_nil] at i2 ⊢
        omega
      · exact fun x hx => i3 x (List.mem_cons_of_mem _ hx)
      · intro x hx
        rcases i6 x hx with h | h
        · rcases List.mem_append.mp h with h2 | h2
          · exact Or.inl h2
          · rcases List.mem_singleton.mp h2 with rfl
            exact Or.inr hvis
        · exact Or.inr (fun hm => h (List.mem_cons_of_mem _ hm))

theorem drain_tv_lt {tv vis : List String} (h : tv ≠ []) :
    (drain tv vis []).2.1.length < tv.length := by
  cases tv with
  | nil => exact absurd rfl h
  | cons url rest =>
    unfold drain
    split_ifs with h10 hvis
    · simp at h10
    · have h1 := (drain_spec rest vis [] List.nodup_nil (by simp)).1
      simpa using Nat.lt_succ_of_le h1
    · have h1 := (drain_spec rest (url :: vis) ([] ++ [url])
        (by simp) (by simp)).1
      simpa using Nat.lt_succ_of_le h1

/-- The crawl loop does nothing once the cap is reached
(shared helper form). -/
theorem crawlLoop_capped {w : World} {host : String} {mp : Nat}
    (fuel : Nat) (s : CrawlState) (h : mp ≤ s.discovered.length) :
    crawlLoop w host mp fuel s = s := by
  cases fuel with
  | zero => rfl
  | succ n =>
    show (if s.toVisit = [] ∨ mp ≤ s.discovered.length then s else _) = s
    rw [if_pos (Or.inr h)]

/-- Let-free unfolding of one iteration of the crawl loop. -/
theorem crawlLoop_succ_eq (w : World) (host : String) (mp n : Nat)
    (s : CrawlState) :
    crawlLoop w host mp (n + 1) s =
      if s.toVisit = [] ∨ mp ≤ s.discovered.length then s
      else if (drain s.toVisit s.visited []).1 = [] then
        { s with toVisit := (drain s.toVisit s.visited []).2.1,
                 visited := (drain s.toVisit s.visited []).2.2 }
      else
        crawlLoop w host mp n
          { toVisit := (((drain s.toVisit s.visited []).1.map
              (fun u => (u, fetch_text w u))).foldl (processPage host mp)
                (s.discovered, (drain s.toVisit s.visited []).2.1)).2,
            visited := (drain s.toVisit s.visited []).2.2,
            discovered := (((drain s.toVisit s.visited []).1.map
              (fun u => (u, fetch_text w u))).foldl (processPage host mp)
                (s.discovered, (drain s.toVisit s.visited []).2.1)).1,
            fetched := s.fetched ++ (drain s.toVisit s.visited []).1 } := rfl

theorem crawlLoop_disc_sub (w : World) (host : String) (mp : Nat) :
    ∀ (fuel : Nat) (s : CrawlState) (x : String),
      x ∈ s.discovered → x ∈ (crawlLoop w host mp fuel s).discovered := by
  intro fuel
  induction fuel with
  | zero => exact fun s x hx => hx
  | succ n ih =>
    intro s x hx
    rw [crawlLoop_succ_eq]
    split
    · exact hx
    · split
      · exact hx
      · exact ih _ x (ppFold_fst_sub host mp _ _ hx)

theorem crawlLoop_disc_new (w : World) (host : String) (mp : Nat) :
    ∀ (fuel : Nat) (s : CrawlState) (x : String),
      x ∈ (crawlLoop w host mp fuel s).discovered →
      x ∈ s.discovered ∨ same_host x host = true := by
  intro fuel
  induction fuel with
  | zero => exact fun s x hx => Or.inl hx
  | succ n ih =>
    intro s x hx
    rw [crawlLoop_succ_eq] at hx
    split at hx
    · exact Or.inl hx
    · split at hx
      · exact Or.inl hx
      · rcases ih _ x hx with h | h
        · exact ppFold_fst_new host mp _ _ x h
        · exact Or.inr h

theorem crawlLoop_phi (w : World) (host : String) (mp : Nat) :
    ∀ (fuel : Nat) (s : CrawlState),
      crawlPhi mp (crawlLoop w host mp fuel s) ≤ crawlPhi mp s := by
  intro fuel
  induction fuel with
  | zero => exact fun s => Nat.le_refl _
  | succ n ih =>
    intro s
    rw [crawlLoop_succ_eq]
    split
    · exact Nat.le_refl _
    · split
      · have h1 := (drain_spec s.toVisit s.visited [] List.nodup_nil (by simp)).1
        unfold crawlPhi
        simp only
        omega
      · refine Nat.le_trans (ih _) ?_
        have hpp := ppFold_phi host mp
          ((drain s.toVisit s.visited []).1.map (fun u => (u, fetch_text w u)))
          (s.discovered, (drain s.toVisit s.visited []).2.1)
        have hd := (drain_spec s.toVisit s.visited [] List.nodup_nil (by simp)).2.1
        unfold crawlPhi
        simp only [List.length_append, List.length_nil] at *
        omega

theorem crawlLoop_fetched_inv (w : World) (host : String) (mp : Nat) :
    ∀ (fuel : Nat) (s : CrawlState), s.fetched.Nodup →
      (∀ x ∈ s.fetched, x ∈ s.visited) →
      (crawlLoop w host mp fuel s).fetched.Nodup ∧
      (∀ x ∈ (crawlLoop w host mp fuel s).fetched,
        x ∈ (crawlLoop w host mp fuel s).visited) := by
  intro fuel
  induction fuel with
  | zero => exact fun s h1 h2 => ⟨h1, h2⟩
  | succ n ih =>
    intro s h1 h2
    rw [crawlLoop_succ_eq]
    split
    · exact ⟨h1, h2⟩
    · obtain ⟨d1, d2, d3, d4, d5, d6⟩ :=
        drain_spec s.toVisit s.visited [] List.nodup_nil (by simp)
      split
      · exact ⟨h1, fun x hx => d3 x (h2 x hx)⟩
      · refine ih _ ?_ ?_
        · simp only
          rw [List.nodup_append]
          refine ⟨h1, d5, ?_⟩
          intro a ha hb
          rcases d6 a hb with h | h
          · simp at h
          · exact h (h2 a ha)
        · intro x hx
          simp only at hx ⊢
          rcases List.mem_append.mp hx with h | h
          · exact d3 x (h2 x h)
          · exact d4 x h

theorem crawlLoop_step_measure (w : World) (host : String) (mp : Nat)
    (s : CrawlState) (h1 : s.toVisit ≠ []) :
    loopMeasure mp
      { toVisit := (((drain s.toVisit s.visited []).1.map
          (fun u => (u, fetch_text w u))).foldl (processPage host mp)
            (s.discovered, (drain s.toVisit s.visited []).2.1)).2,
        visited := (drain s.toVisit s.visited []).2.2,
        discovered := (((drain s.toVisit s.visited []).1.map
          (fun u => (u, fetch_text w u))).foldl (processPage host mp)
            (s.discovered, (drain s.toVisit s.visited []).2.1)).1,
        fetched := s.fetched ++ (drain s.toVisit s.visited []).1 } <
      loopMeasure mp s := by
  have hpp := ppFold_measure host mp
    ((drain s.toVisit s.visited []).1.map (fun u => (u, fetch_text w u)))
    (s.discovered, (drain s.toVisit s.visited []).2.1)
  have hlt := @drain_tv_lt s.toVisit s.visited h1
  unfold loopMeasure
  simp only at hpp ⊢
  omega

theorem crawlLoop_stable (w : World) (host : String) (mp : Nat) :
    ∀ (k n m : Nat) (s : CrawlState), loopMeasure mp s ≤ k →
      loopMeasure mp s < n → loopMeasure mp s < m →
      crawlLoop w host mp n s = crawlLoop w host mp m s := by
  intro k
  induction k with
  | zero =>
    intro n m s hk hn hm
    have htv : s.toVisit = [] := by
      unfold loopMeasure at hk
      have : s.toVisit.length = 0 := by omega
      exact List.length_eq_zero.mp this
    obtain ⟨n', rfl⟩ : ∃ n', n = n' + 1 := ⟨n - 1, by omega⟩
    obtain ⟨m', rfl⟩ : ∃ m', m = m' + 1 := ⟨m - 1, by omega⟩
    rw [crawlLoop_succ_eq, crawlLoop_succ_eq,
      if_pos (Or.inl htv), if_pos (Or.inl htv)]
  | succ k ih =>
    intro n m s hk hn hm
    obtain ⟨n', rfl⟩ : ∃ n', n = n' + 1 := ⟨n - 1, by omega⟩
    obtain ⟨m', rfl⟩ : ∃ m', m = m' + 1 := ⟨m - 1, by omega⟩
    rw [crawlLoop_succ_eq w host mp n', crawlLoop_succ_eq w host mp m']
    by_cases hguard : s.toVisit = [] ∨ mp ≤ s.discovered.length
    · rw [if_pos hguard, if_pos hguard]
    rw [if_neg hguard, if_neg hguard]
    by_cases hb : (drain s.toVisit s.visited []).1 = []
    · rw [if_pos hb, if_pos hb]
    rw [if_neg hb, if_neg hb]
    have htv : s.toVisit ≠ [] := fun h => hguard (Or.inl h)
    have hstep := crawlLoop_step_measure w host mp s htv
    exact ih n' m' _ (by omega) (by omega) (by omega)

theorem crawlLoop_fetched_le (w : World) (host : String) (mp fuel : Nat)
    (s : CrawlState) (hf : s.fetched = [])
    (htv : s.toVisit.length ≤ s.discovered.length) :
    (crawlLoop w host mp fuel s).fetched.length ≤ 2 * mp := by
  by_cases hcap : mp ≤ s.discovered.length
  · rw [crawlLoop_capped fuel s hcap, hf]
    simp
  · have hphi := crawlLoop_phi w host mp fuel s
    unfold crawlPhi at hphi
    rw [hf] at hphi
    simp only [List.length_nil] at hphi
    omega

/-- Claim C6 (confirmed): for every world (cyclic link graphs included),
every seed set and every cap, the crawl loop terminates — its result is
already stable at fuel `loopMeasure + 1`, so the fuel passed by
`crawl_site` (which is strictly larger) is irrelevant and the unbounded
Python `while` loop it models halts in finitely many steps.  The fetch
trace is bounded by `2 * max_pages` attempts and contains no URL twice:
the visited set guarantees each URL is dequeued and fetched at most once
per request. -/
theorem claim_C6_crawl_terminates_bounded (w : World) (host : String)
    (mp fuel : Nat) (s : CrawlState) (hf : s.fetched = [])
    (htv : s.toVisit.length ≤ s.discovered.length)
    (hfuel : loopMeasure mp s < fuel) :
    crawlLoop w host mp fuel s = crawlLoop w host mp (loopMeasure mp s + 1) s ∧
    (crawlLoop w host mp fuel s).fetched.length ≤ 2 * mp ∧
    (crawlLoop w host mp fuel s).fetched.Nodup :=
  ⟨crawlLoop_stable w host mp (loopMeasure mp s) fuel (loopMeasure mp s + 1) s
      (Nat.le_refl _) hfuel (Nat.lt_succ_self _),
   crawlLoop_fetched_le w host mp fuel s hf htv,
   (crawlLoop_fetched_inv w host mp fuel s (by simp [hf]) (by simp [hf])).1⟩

theorem claim_C6_witness :
    crawlLoop failW "ex.com" 3 10 stWitness =
      crawlLoop failW "ex.com" 3 (loopMeasure 3 stWitness + 1) stWitness ∧
    (crawlLoop failW "ex.com" 3 10 stWitness).fetched.length ≤ 2 * 3 ∧
    (crawlLoop failW "ex.com" 3 10 stWitness).fetched.Nodup :=
  claim_C6_crawl_terminates_bounded failW "ex.com" 3 10 stWitness rfl
    (by decide) (by decide)

/-! ## Membership lemmas for the remaining phases -/

theorem mem_insertStr {x y : String} :
    ∀ {l : List String}, x ∈ insertStr y l ↔ x = y ∨ x ∈ l := by
  intro l
  induction l with
  | nil => simp [insertStr]
  | cons z zs ih =>
    unfold insertStr
    split
    · simp
    · rw [List.mem_cons, ih, List.mem_cons]
      tauto

theorem mem_sortStr {x : String} :
    ∀ {l : List String}, x ∈ sortStr l ↔ x ∈ l := by
  intro l
  induction l with
  | nil => simp [sortStr]
  | cons z zs ih =>
    show x ∈ insertStr z (sortStr zs) ↔ _
    rw [mem_insertStr, ih, List.mem_cons]

theorem same_host_self (u : String) : same_host u (hostOf u) = true := by
  unfold same_host hostOf
  exact beq_self_eq_true _

theorem pyUrlsplitE_ok {a b : List Char} {p : UrlParts}
    (h : pyUrlsplitE a b = .ok p) : p = pyUrlsplitCore a b := by
  unfold pyUrlsplitE at h
  split at h
  · exact absurd h (by simp)
  · injection h with h
    exact h.symm

theorem same_hostE_ok {u hs : String} {b : Bool}
    (h : same_hostE u hs = .ok b) : same_host u hs = b := by
  unfold same_hostE at h
  split at h
  · exact absurd h (by simp)
  · next p heq =>
    injection h with h2
    unfold same_host
    rw [← pyUrlsplitE_ok heq]
    exact h2

theorem pyUrldefragE_ok {l r : List Char} (h : pyUrldefragE l = .ok r) :
    r = pyUrldefragCore l := by
  unfold pyUrldefragE at h
  split at h
  · next hmem =>
    split at h
    · exact absurd h (by simp)
    · next p heq =>
      injection h with h2
      unfold pyUrldefragCore
      rw [if_pos hmem, ← pyUrlsplitE_ok heq]
      exact h2.symm
  · next hmem =>
    injection h with h2
    unfold pyUrldefragCore
    rw [if_neg hmem]
    exact h2.symm

theorem normCoreE_ok {l r : List Char} (h : normCoreE l = .ok r) :
    r = normCore l := by
  unfold normCoreE at h
  split at h
  · exact absurd h (by simp)
  · next u heq =>
    injection h with h2
    rw [pyUrldefragE_ok heq] at h2
    exact h2.symm

theorem normalize_urlE_ok {s r : String} (h : normalize_urlE s = .ok r) :
    r = normalize_url s := by
  unfold normalize_urlE at h
  split at h
  · exact absurd h (by simp)
  · next rl heq =>
    injection h with h2
    rw [← h2]
    exact congrArg String.mk (normCoreE_ok heq)

theorem pyUrljoinE_ok {a b r : List Char} (h : pyUrljoinE a b = .ok r) :
    r = pyUrljoinCore a b := by
  unfold pyUrljoinE at h
  split_ifs at h with h1 h2
  · injection h with h3
    unfold pyUrljoinCore
    rw [if_pos h1]
    exact h3.symm
  · injection h with h3
    unfold pyUrljoinCore
    rw [if_neg h1, if_pos h2]
    exact h3.symm
  · split at h
    · exact absurd h (by simp)
    · split at h
      · exact absurd h (by simp)
      · injection h with h3
        exact h3.symm

theorem wpNormalize_some {host : String} {link : Option Json} {u : String}
    (h : wpNormalize host link = .ok (some u)) : same_host u host = true := by
  unfold wpNormalize at h
  split at h
  · split at h
    · split at h
      · exact absurd h (by simp)
      · next n hnE =>
        split at h
        · split at h
          · exact absurd h (by simp)
          · next b hsE =>
            split at h
            · next hb =>
              injection h with h
              injection h with h
              subst h
              rw [same_hostE_ok hsE, hb]
            · injection h with h
              simp at h
        · injection h with h
          simp at h
    · exact absurd h (by simp)
  · injection h with h
    simp at h

theorem wpItemProcess_some {host : String} {item : Json} {u : String}
    (h : wpItemProcess host item = .ok (some u)) :
    same_host u host = true := by
  unfold wpItemProcess at h
  split at h
  · split at h
    · exact absurd h (by simp)
    · exact wpNormalize_some h
  · exact absurd h (by simp)

theorem wpCollect_mem {host : String} :
    ∀ (items : List Json) (acc : List String) (x : String),
      x ∈ wpCollect host items acc → x ∈ acc ∨ same_host x host = true := by
  intro items
  induction items with
  | nil => exact fun acc x hx => Or.inl hx
  | cons it rest ih =>
    intro acc x hx
    unfold wpCollect at hx
    split at hx
    · exact Or.inl hx
    · exact ih _ _ hx
    · next u hres =>
      rcases ih _ _ hx with h | h
      · rcases mem_addUniq.mp h with h2 | rfl
        · exact Or.inl h2
        · exact Or.inr (wpItemProcess_some hres)
      · exact Or.inr h

theorem wpEndpoint_mem {w : World} {root host endpoint : String}
    {acc : List String} {x : String}
    (hx : x ∈ wpEndpoint w root host endpoint acc) :
    x ∈ acc ∨ same_host x host = true := by
  unfold wpEndpoint wpEndpointBody at hx
  split at hx
  · exact Or.inl hx
  · split at hx
    · split at hx
      · exact Or.inl hx
      · exact wpCollect_mem _ _ _ hx
      · exact Or.inl hx
    · exact Or.inl hx

theorem enumerate_wordpress_mem {w : World} {root host : String} {x : String}
    (hx : x ∈ enumerate_wordpress w root host) : same_host x host = true := by
  unfold enumerate_wordpress at hx
  rcases wpEndpoint_mem hx with h | h
  · rcases wpEndpoint_mem h with h2 | h2
    · simp at h2
    · exact h2
  · exact h

theorem sitemapPhase_mem {w : World} {host : String} :
    ∀ (sms : List String) (d0 : List String) (x : String),
      x ∈ sitemapPhase w host sms d0 → x ∈ d0 ∨ same_host x host = true := by
  intro sms
  induction sms with
  | nil => exact fun d0 x hx => Or.inl hx
  | cons sm rest ih =>
    intro d0 x hx
    unfold sitemapPhase at hx
    simp only [List.foldl_cons] at hx
    rcases ih _ x hx with h | h
    · split at h
      · rcases mem_foldl_addUniq _ _ h with h2 | h2
        · exact Or.inl h2
        · exact Or.inr (List.mem_filter.mp h2).2
      · exact Or.inl h
    · exact Or.inr h

theorem sitemapPhase_sub {w : World} {host : String} :
    ∀ (sms : List String) (d0 : List String) (x : String),
      x ∈ d0 → x ∈ sitemapPhase w host sms d0 := by
  intro sms
  induction sms with
  | nil => exact fun d0 x hx => hx
  | cons sm rest ih =>
    intro d0 x hx
    unfold sitemapPhase at ih ⊢
    simp only [List.foldl_cons]
    apply ih
    split
    · exact foldl_addUniq_sub _ _ hx
    · exact hx

theorem discoveredPreCrawl_mem {w : World} {start host : String} {x : String}
    (hx : x ∈ discoveredPreCrawl w start host) :
    x = start ∨ same_host x host = true := by
  unfold discoveredPreCrawl at hx
  rcases mem_foldl_addUniq _ _ hx with h | h
  · rcases sitemapPhase_mem _ _ _ h with h2 | h2
    · exact Or.inl (List.mem_singleton.mp h2)
    · exact Or.inr h2
  · exact Or.inr (enumerate_wordpress_mem h)

theorem discoveredPreCrawl_start (w : World) (start host : String) :
    start ∈ discoveredPreCrawl w start host := by
  unfold discoveredPreCrawl
  exact foldl_addUniq_sub _ _
    (sitemapPhase_sub _ _ start (List.mem_singleton.mpr rfl))

/-- Claim C2 (confirmed): every URL in a successful `/crawl_site` response
has the same authority (`urlparse(...).netloc`, i.e. hostname:port) as the
start URL — the start URL trivially, sitemap and REST URLs by the explicit
`same_host` filters, and crawled links by the filter in
`extract_links_from_html` re-checked at insertion. -/
theorem claim_C2_host_filter (w : World) (start : String) (N : Int)
    (r : CrawlResult) (h : crawl_site w start N = .ok r) (u : String)
    (hu : u ∈ r.links) : same_host u (hostOf start) = true := by
  unfold crawl_site at h
  split at h
  · injection h with h2
    rw [← h2] at hu
    have hu2 := mem_sortStr.mp hu
    rcases crawlLoop_disc_new _ _ _ _ _ u hu2 with hdisc | hsh
    · rcases discoveredPreCrawl_mem hdisc with rfl | hsh
      · exact same_host_self u
      · exact hsh
    · exact hsh
  · exact absurd h (by simp)

theorem claim_C2_witness :
    same_host "https://ex.com/" (hostOf "https://ex.com/") = true :=
  claim_C2_host_filter failW "https://ex.com/" 5
    ⟨"https://ex.com/", 1, ["https://ex.com/"]⟩ rfl "https://ex.com/"
    (by decide)

/-- Every URL emitted by `extract_links_from_html` already passed the
`same_hostE` check successfully, so the un-wrapped `same_host` recheck
inside the crawl loop (app.py line 226) cannot raise on its actual
arguments — this justifies reusing the total `crawlLoop` in
`crawl_siteE`. -/
theorem htmlLinksGo_no_raise (base_url host : String) :
    ∀ (hs acc : List String),
      (∀ y ∈ acc, same_hostE y host = .ok true) →
      ∀ x ∈ htmlLinksGo base_url host hs acc, same_hostE x host = .ok true
  | [], _, hinv, x, hx => hinv x hx
  | href :: rest, acc, hinv, x, hx => by
    unfold htmlLinksGo at hx
    split at hx
    · exact hinv x hx
    · split at hx
      · exact hinv x hx
      · next absolute hn =>
        split at hx
        · split at hx
          · exact hinv x hx
          · next hsm =>
            refine htmlLinksGo_no_raise base_url host rest _ ?_ x hx
            intro y hy
            rcases mem_addUniq.mp hy with hy2 | rfl
            · exact hinv y hy2
            · exact hsm
          · exact htmlLinksGo_no_raise base_url host rest acc hinv x hx
        · exact htmlLinksGo_no_raise base_url host rest acc hinv x hx

theorem extract_links_no_raise (html base_url host x : String)
    (hx : x ∈ extract_links_from_html html base_url host) :
    same_hostE x host = .ok true :=
  htmlLinksGo_no_raise base_url host (extractHrefs html) [] (by simp) x hx

theorem sitemapUpdateE_sub (host : String) :
    ∀ (us d d' : List String), sitemapUpdateE host us d = .ok d' →
      ∀ x ∈ d, x ∈ d'
  | [], d, d', h, x, hx => by
    unfold sitemapUpdateE at h
    injection h with h2
    rw [← h2]
    exact hx
  | u :: rest, d, d', h, x, hx => by
    unfold sitemapUpdateE at h
    split at h
    · exact absurd h (by simp)
    · exact sitemapUpdateE_sub host rest _ d' h x (addUniq_sub _ hx)
    · exact sitemapUpdateE_sub host rest _ d' h x hx

theorem sitemapPhaseE_sub (w : World) (host : String) :
    ∀ (sms d d' : List String), sitemapPhaseE w host sms d = .ok d' →
      ∀ x ∈ d, x ∈ d'
  | [], d, d', h, x, hx => by
    unfold sitemapPhaseE at h
    injection h with h2
    rw [← h2]
    exact hx
  | sm :: rest, d, d', h, x, hx => by
    unfold sitemapPhaseE at h
    split at h
    · exact absurd h (by simp)
    · next d2 heq =>
      refine sitemapPhaseE_sub w host rest d2 d' h x ?_
      split at heq
      · exact sitemapUpdateE_sub host _ d d2 heq x hx
      · injection heq with h3
        rw [← h3]
        exact hx

/-- Claim C5 counterexample: a world whose robots.txt advertises the
sitemap URL `http://[#f`.  The un-wrapped `normalize_url` call inside
`discover_sitemaps` (app.py line 99) raises `ValueError("Invalid IPv6
URL")` on it, and no handler catches the raise, so the request fails
even though the start URL passes the scheme check — a remote-data
failure has propagated to a request-level fault. -/
theorem claim_C5_counterexample :
    isPref "http".data (pyUrlsplitCore "https://ex.com/".data []).scheme
      = true ∧
    crawl_siteE w8 "https://ex.com/" 50 = .error .valueError :=
  ⟨by decide, by rfl⟩

/-- Claim C5 (corrected): transport-level failures (network errors,
non-2xx statuses, unparseable bodies) are indeed absorbed locally, and
whenever the endpoint returns a result set it contains the start URL;
but the claim's "never an unhandled fault" is false: a malformed URL in
remote data (a bracket-mismatched netloc in a robots.txt `Sitemap:`
line, a sitemap `<loc>`, or a WP REST link) reaches an un-wrapped
`urllib.parse` call and raises `ValueError` out of the handler. -/
theorem claim_C5_ok_contains_start (w : World) (start : String) (N : Int)
    (r : CrawlResult) (h : crawl_siteE w start N = .ok r) :
    start ∈ r.links := by
  unfold crawl_siteE at h
  split at h
  · exact absurd h (by simp)
  next parsed hp =>
    split at h
    · split at h
      · exact absurd h (by simp)
      next sitemaps hsm =>
        split at h
        · exact absurd h (by simp)
        next d1 hd1 =>
          split at h
          · exact absurd h (by simp)
          next wps hwp =>
            split at h
            · exact absurd h (by simp)
            next seeds hseeds =>
              have h2 := Except.ok.inj h
              rw [← h2]
              refine mem_sortStr.mpr (crawlLoop_disc_sub _ _ _ _ _ start ?_)
              exact foldl_addUniq_sub _ _
                (sitemapPhaseE_sub w _ sitemaps [start] d1 hd1 start
                  (List.mem_singleton.mpr rfl))
    · exact absurd h (by simp)

theorem claim_C5_ok_witness :
    "https://ex.com/" ∈
      (⟨"https://ex.com/", 2,
        ["https://ex.com/", "https://ex.com/alpha"]⟩ : CrawlResult).links :=
  claim_C5_ok_contains_start w5 "https://ex.com/" 50
    ⟨"https://ex.com/", 2, ["https://ex.com/", "https://ex.com/alpha"]⟩
    (by rfl)

/-- Claim C8 counterexample: `normalize_url("http://[#f")` raises
`ValueError("Invalid IPv6 URL")` — the netloc after fragment splitting
is `[`, a mismatched bracket, and neither `normalize_url` nor its
`urldefrag` call catches the raise — refuting "never throws on
malformed input". -/
theorem claim_C8_counterexample :
    normalize_urlE "http://[#f" = .error () := by rfl

/-- Claim C8 (corrected): whenever `normalize_url` returns — i.e. on
every input whose defragmented netloc does not have a mismatched
`[`/`]` bracket — the result is the total value component and is either
empty or an absolute fragment-free `http(s)` URL not matching the
`mailto:|tel:|javascript:` regex; but `normalize_url` is not total: on
a malformed bracketed netloc the inner `urlsplit` raises `ValueError`
and `normalize_url` propagates it. -/
theorem claim_C8_shape_unless_raise (s r : String)
    (h : normalize_urlE s = .ok r) :
    r = normalize_url s ∧
    (r = "" ∨ (startsHttp r.data = true ∧ '#' ∉ r.data ∧
               badScheme r.data = false)) := by
  have hr := normalize_urlE_ok h
  refine ⟨hr, ?_⟩
  subst hr
  rcases normCore_shape s.data with h2 | h2
  · left
    show (⟨normCore s.data⟩ : String) = ""
    rw [h2]
  · right
    exact h2

theorem claim_C8_shape_witness :
    ("http://a.com/x" : String) = normalize_url "  http://a.com/x#f  " ∧
    (("http://a.com/x" : String) = "" ∨
     (startsHttp ("http://a.com/x" : String).data = true ∧
      '#' ∉ ("http://a.com/x" : String).data ∧
      badScheme ("http://a.com/x" : String).data = false)) :=
  claim_C8_shape_unless_raise "  http://a.com/x#f  " "http://a.com/x"
    (by rfl)
